import Mathlib

/-!
Verification of the momentum identity-service core against its specification.

The development shallowly embeds the two subsystems covered by the spec:

* `src/shared/logger_unary.go` — the unary logging interceptor
  (`LoggingUnaryInterceptor`, `sanitizeFields`), modelled as a pure function
  from an interceptor configuration, a rendered request payload and an
  abstract handler outcome to the pair (value returned to the caller, list of
  emitted log entries).

* `src/services/identity/database/db.go` — the connection manager
  (`ConnWithContext`, `createConnection`, `HealthCheck`, `Close`) and the
  seeder (`SeederWithContext`, `seedPermissions`, `seedRoles`,
  `createRoleWithPermissions`), modelled over an explicit datastore state.
  External driver behaviour (gorm dial / ping / close) is abstracted into a
  `DriverEnv` record of success flags; a dial counter records how many
  physical connection establishments occur.

* the bootstrap retry loop of `initializeDatabase` in
  `src/services/identity/main.go`, modelled as structural recursion over the
  remaining attempts with an oracle giving each attempt's outcome.

* the double-checked-locking discipline of `ConnWithContext` is additionally
  modelled as a small interleaving machine (`MState`, `tstep`) in which each
  caller thread executes the RLock / check / RUnlock / Lock / re-check /
  create program and a schedule picks which thread steps next.
-/

set_option maxHeartbeats 1600000

namespace Momentum

/-! ### Logging interceptor (`src/shared/logger_unary.go`) -/

/-- Zap log levels used by the interceptor (`zapcore.Level`). -/
inductive LogLevel where
  | debug
  | info
  | warn
  | error
deriving Repr, DecidableEq

/-- `InterceptorConfig` from `logger_unary.go` (the `Logger` field is the log
sink itself and is not part of the pure model). -/
structure InterceptorConfig where
  logLevel : LogLevel
  logRequests : Bool
  logResponses : Bool
  logMetadata : Bool
  sensitiveFields : List String
  slowRequestThreshold : Nat
  serverName : String
deriving Repr, DecidableEq

/-- Does the first list begin the second one?  (Executable prefix test on
characters.) -/
def beginsWith : List Char → List Char → Bool
  | [], _ => true
  | _ :: _, [] => false
  | a :: sub, b :: s => a == b && beginsWith sub s

/-- Go's `strings.Contains`: does `sub` occur contiguously inside the
text?  (The text is the second argument.) -/
def containsSub (sub : List Char) : List Char → Bool
  | [] => beginsWith sub []
  | b :: s => beginsWith sub (b :: s) || containsSub sub s

/-- Go's `strings.ToLower` on the rendered text (ASCII case folding, which
is all the configured sensitive fields use). -/
def lowerStr (s : String) : List Char :=
  s.data.map Char.toLower

/-- The sensitive-payload test of `sanitizeFields`:
`strings.Contains(strings.ToLower(objStr), strings.ToLower(field))` for any
configured field. -/
def sensitiveHit (objStr : String) (fields : List String) : Bool :=
  fields.any (fun field => containsSub (lowerStr field) (lowerStr objStr))

/-- The fixed redaction marker returned by `sanitizeFields`. -/
def redactionMarker : String := "[REDACTED - Contains sensitive data]"

/-- `sanitizeFields` from `logger_unary.go`: render the payload to a string
(the model works directly on the rendered `fmt.Sprintf` text), and if any
configured sensitive substring occurs case-insensitively anywhere in it,
replace the whole payload by the fixed marker; `nil` payloads pass through. -/
def sanitizeFields (obj : Option String) (sensitiveFields : List String) : Option String :=
  match obj with
  | none => none
  | some objStr =>
    if sensitiveHit objStr sensitiveFields then
      some redactionMarker
    else
      some objStr

/-- Outcome of invoking the wrapped handler: a normal response, an ordinary
error, or a panic carrying an arbitrary payload.  The measured duration of
the invocation is attached to the outcome. -/
inductive HandlerOutcome where
  | ok (resp : String) (duration : Nat)
  | fail (code : Nat) (msg : String) (duration : Nat)
  | panicked (payload : String) (duration : Nat)
deriving Repr, DecidableEq

/-- gRPC status code `codes.Internal`. -/
def grpcCodeInternal : Nat := 13

/-- gRPC status code `codes.OK`. -/
def grpcCodeOK : Nat := 0

/-- Stand-in for the text produced by `debug.Stack()` (an opaque non-empty
stack trace string). -/
def debugStack : String := "goroutine 1 [running]: momentum stack trace"

/-- One structured log entry, with the fields the claims are about.  Absent
fields are `none`. -/
structure LogEntry where
  level : LogLevel
  msg : String
  request : Option String := none
  response : Option String := none
  slowRequest : Option Bool := none
  panicValue : Option String := none
  stack : Option String := none
  duration : Option Nat := none
  code : Option Nat := none
  errMsg : Option String := none
deriving Repr, DecidableEq

/-- What one interceptor invocation produces: the response and error returned
to the caller, and the log entries emitted (in order). -/
structure CallResult where
  resp : Option String
  err : Option (Nat × String)
  logs : List LogEntry
deriving Repr, DecidableEq

/-- The "gRPC request received" entry emitted at the start of every call:
carries the sanitized request payload when request logging is enabled. -/
def receivedEntry (config : InterceptorConfig) (req : String) : LogEntry :=
  if config.logRequests then
    { level := config.logLevel, msg := "gRPC request received",
      request := sanitizeFields (some req) config.sensitiveFields }
  else
    { level := config.logLevel, msg := "gRPC request received" }

/-- The "gRPC method panicked" entry emitted by the deferred recover. -/
def panickedEntry (payload : String) (duration : Nat) : LogEntry :=
  { level := .error, msg := "gRPC method panicked", panicValue := some payload,
    stack := some debugStack, duration := some duration }

/-- The "gRPC method failed" entry for an ordinary handler error. -/
def failedEntry (code : Nat) (msg : String) (duration : Nat) : LogEntry :=
  { level := .error, msg := "gRPC method failed", duration := some duration,
    code := some code, errMsg := some msg }

/-- The optional sanitized response payload attached on success. -/
def respField (config : InterceptorConfig) (resp : String) : Option String :=
  if config.logResponses then sanitizeFields (some resp) config.sensitiveFields
  else none

/-- The "gRPC method completed (SLOW)" warning entry. -/
def slowEntry (config : InterceptorConfig) (resp : String) (duration : Nat) : LogEntry :=
  { level := .warn, msg := "gRPC method completed (SLOW)",
    duration := some duration, code := some grpcCodeOK,
    response := respField config resp, slowRequest := some true }

/-- The ordinary "gRPC method completed" entry. -/
def completedEntry (config : InterceptorConfig) (resp : String) (duration : Nat) : LogEntry :=
  { level := config.logLevel, msg := "gRPC method completed",
    duration := some duration, code := some grpcCodeOK,
    response := respField config resp }

/-- `LoggingUnaryInterceptor` from `logger_unary.go`, as a pure function of
the handler outcome.  On a panic the deferred `recover` converts it into an
`Internal` error and emits an error-level entry with the panic value, the
stack trace and the elapsed duration (the normal completion-logging code is
skipped, as in Go, because the panic unwound past it).  On an ordinary error
the error is passed through and logged at error level.  On success, a
completion entry is emitted: at warning level with `grpc.slow_request=true`
when the duration exceeds `slowRequestThreshold`, otherwise at the
configured level with no slow flag. -/
def loggingUnaryInterceptor (config : InterceptorConfig) (req : String)
    (outcome : HandlerOutcome) : CallResult :=
  match outcome with
  | .panicked payload duration =>
    { resp := none,
      err := some (grpcCodeInternal, "panic recovered: " ++ payload),
      logs := [receivedEntry config req, panickedEntry payload duration] }
  | .fail code msg duration =>
    { resp := none, err := some (code, msg),
      logs := [receivedEntry config req, failedEntry code msg duration] }
  | .ok resp duration =>
    if duration > config.slowRequestThreshold then
      { resp := some resp, err := none,
        logs := [receivedEntry config req, slowEntry config resp duration] }
    else
      { resp := some resp, err := none,
        logs := [receivedEntry config req, completedEntry config resp duration] }

/-! ### Connection manager (`src/services/identity/database/db.go`) -/

/-- Abstraction of the external database driver: whether a dial
(`gorm.Open` + pool configuration + initial `PingContext`) succeeds, whether
pinging an established handle succeeds, and whether closing succeeds. -/
structure DriverEnv where
  dialOk : Bool
  pingOk : Bool
  closeOk : Bool
deriving Repr, DecidableEq

/-- The `Database` manager state: the DSN and the lazily created connection
handle (`nil` in Go is `none` here; handles are abstract numerals). -/
structure Database where
  dsn : String
  connection : Option Nat
deriving Repr, DecidableEq

/-- Decidable equality for `Except` (not derived automatically in this
toolchain). -/
def exceptDecEq {ε α : Type} [DecidableEq ε] [DecidableEq α] :
    (a b : Except ε α) → Decidable (a = b)
  | .error e, .error e' =>
    if h : e = e' then .isTrue (by rw [h])
    else .isFalse (by intro hc; cases hc; exact h rfl)
  | .error _, .ok _ => .isFalse (by intro hc; cases hc)
  | .ok _, .error _ => .isFalse (by intro hc; cases hc)
  | .ok a, .ok b =>
    if h : a = b then .isTrue (by rw [h])
    else .isFalse (by intro hc; cases hc; exact h rfl)

instance {ε α : Type} [DecidableEq ε] [DecidableEq α] : DecidableEq (Except ε α) :=
  exceptDecEq

/-- Result of a connection-path operation: the new manager state, the Go
return value (`handle` or `error`), and how many physical dials the
operation performed. -/
structure ConnOutcome where
  db : Database
  result : Except String Nat
  dials : Nat
deriving Repr, DecidableEq

/-- `createConnection`: error immediately on an empty DSN without dialing;
otherwise dial once; on success store the handle. -/
def createConnection (env : DriverEnv) (d : Database) : ConnOutcome :=
  if d.dsn = "" then
    { db := d, result := .error "DSN não pode estar vazio", dials := 0 }
  else if env.dialOk then
    { db := { d with connection := some 1 }, result := .ok 1, dials := 1 }
  else
    { db := d, result := .error "falha ao conectar ao banco de dados", dials := 1 }

/-- `ConnWithContext` in its sequential reading: return the existing handle
if one is stored, otherwise create one.  (The locking discipline that makes
this safe under concurrency is modelled separately below.) -/
def connWithContext (env : DriverEnv) (d : Database) : ConnOutcome :=
  match d.connection with
  | some h => { db := d, result := .ok h, dials := 0 }
  | none => createConnection env d

/-- `HealthCheck`: obtain a handle via `ConnWithContext` (which creates one
when absent), then ping it. -/
def healthCheck (env : DriverEnv) (d : Database) : ConnOutcome :=
  let c := connWithContext env d
  match c.result with
  | .error e => { c with result := .error ("falha na conexão: " ++ e) }
  | .ok h =>
    if env.pingOk then { c with result := .ok h }
    else { c with result := .error "falha no ping" }

/-- `Close`: no-op returning `nil` when no handle is stored; otherwise close
the pool and, on success, reset the stored handle to `nil`. -/
def closeDB (env : DriverEnv) (d : Database) : Database × Option String :=
  match d.connection with
  | none => (d, none)
  | some _ =>
    if env.closeOk then ({ d with connection := none }, none)
    else (d, some "falha ao fechar conexão com banco de dados")

/-! ### Bootstrap retry loop (`initializeDatabase` in main.go) -/

/-- Trace of one `initializeDatabase` connection phase: how many attempts
were made, how many times the fixed retry delay was slept, and the final
result. -/
structure BootTrace where
  attempts : Nat
  sleeps : Nat
  result : Except String Unit
deriving Repr, DecidableEq

/-- The `for attempt := 1; attempt <= maxRetries; attempt++` loop of
`initializeDatabase`.  `outcome n` is the result of attempt `n`
(`ConnWithContext` followed by `HealthCheck`): `none` for success, `some e`
for failure with message `e`.  On success the loop breaks without sleeping;
on failure of the final attempt it returns the fatal error naming the
attempt count and the last cause, without sleeping; on failure of a
non-final attempt it sleeps once and retries.  Recursion is on the number of
remaining attempts. -/
def retryAux (outcome : Nat → Option String) (maxRetries : Nat) :
    Nat → Nat → Nat → Nat → BootTrace
  | 0, _, attempts, sleeps =>
    { attempts := attempts, sleeps := sleeps, result := .error "loop exhausted" }
  | fuel + 1, attempt, attempts, sleeps =>
    match outcome attempt with
    | none => { attempts := attempts + 1, sleeps := sleeps, result := .ok () }
    | some e =>
      if attempt = maxRetries then
        { attempts := attempts + 1, sleeps := sleeps,
          result := .error ("failed to connect to database after " ++
            toString maxRetries ++ " attempts: " ++ e) }
      else
        retryAux outcome maxRetries fuel (attempt + 1) (attempts + 1) (sleeps + 1)

/-- `initializeDatabase` (connection phase): an empty `IDENTITY_DSN` fails
before the retry loop with zero attempts; otherwise run the loop with
`maxRetries = 3` starting at attempt 1. -/
def initializeDatabase (dsn : String) (outcome : Nat → Option String) : BootTrace :=
  if dsn = "" then
    { attempts := 0, sleeps := 0,
      result := .error "IDENTITY_DSN environment variable is not set" }
  else
    retryAux outcome 3 3 1 0 0

/-! ### Seeder (`db.go`: `SeederWithContext`, `seedPermissions`, `seedRoles`,
`createRoleWithPermissions`) over an explicit relational store -/

/-- A row of the `permissions` table (only the columns seeding reads). -/
structure Permission where
  id : Nat
  name : String
deriving Repr, DecidableEq

/-- A row of the `roles` table. -/
structure Role where
  id : Nat
  name : String
deriving Repr, DecidableEq

/-- The datastore visible to seeding: the three tables (lists of rows in
table order; the `role_permissions` join table holds `(roleId, permId)`
pairs) plus the next auto-generated primary keys. -/
structure Store where
  perms : List Permission
  roles : List Role
  rolePerms : List (Nat × Nat)
  nextPermId : Nat
  nextRoleId : Nat
deriving Repr, DecidableEq

/-- `tx.Where("name = ?", n).First(&perm)`: first permission row with the
given name. -/
def findPermByName (s : Store) (n : String) : Option Permission :=
  s.perms.find? (fun p => p.name == n)

/-- `tx.Where("name = ?", n).First(&role)`: first role row with the given
name. -/
def findRoleByName (s : Store) (n : String) : Option Role :=
  s.roles.find? (fun r => r.name == n)

/-- `tx.Where("name IN ?", names).Find(&permissions)`: all permission rows
whose name is in the list, in table order. -/
def findPermsIn (s : Store) (names : List String) : List Permission :=
  s.perms.filter (fun p => names.contains p.name)

/-- Body of the `seedPermissions` loop for one name: create the permission
if no row with that name exists. -/
def createPermIfMissing (s : Store) (n : String) : Store :=
  match findPermByName s n with
  | some _ => s
  | none =>
    { s with perms := s.perms ++ [{ id := s.nextPermId, name := n }],
             nextPermId := s.nextPermId + 1 }

/-- `seedPermissions`: for each configured name, create the permission row if
absent. -/
def seedPermissions (s : Store) : List String → Store
  | [] => s
  | n :: rest => seedPermissions (createPermIfMissing s n) rest

/-- `createRoleWithPermissions`: find or create the role by name, resolve the
permission names in bulk, abort unless every name resolved (the resolved row
count must equal the requested name count), then clear the role's existing
associations and append the resolved set. -/
def createRoleWithPermissions (s : Store) (roleName : String) (permNames : List String) :
    Except String Store :=
  let found := findRoleByName s roleName
  let role : Role :=
    match found with
    | some r => r
    | none => { id := s.nextRoleId, name := roleName }
  let s1 : Store :=
    match found with
    | some _ => s
    | none =>
      { s with roles := s.roles ++ [role], nextRoleId := s.nextRoleId + 1 }
  let permissions := findPermsIn s1 permNames
  if permissions.length ≠ permNames.length then
    .error ("nem todas as permissões foram encontradas para a role " ++ roleName)
  else
    .ok { s1 with
      rolePerms := s1.rolePerms.filter (fun rp => rp.1 != role.id) ++
        permissions.map (fun p => (role.id, p.id)) }

/-- `seedRoles` over a role → permission-names configuration: process the
roles in order, returning the first error. -/
def seedRoles (s : Store) : List (String × List String) → Except String Store
  | [] => .ok s
  | rc :: rest =>
    match createRoleWithPermissions s rc.1 rc.2 with
    | .error e => .error e
    | .ok s' => seedRoles s' rest

/-- The transaction body of `SeederWithContext`: seed permissions, then
roles. -/
def seedTx (s : Store) (permList : List String) (config : List (String × List String)) :
    Except String Store :=
  seedRoles (seedPermissions s permList) config

/-- `db.Transaction` semantics (gorm): commit the new store on success, roll
back to the pre-transaction store on error.  Returns the resulting store and
the error returned by `SeederWithContext`. -/
def seederWithContext (s : Store) (permList : List String)
    (config : List (String × List String)) : Store × Option String :=
  match seedTx s permList config with
  | .ok s' => (s', none)
  | .error e => (s, some e)

/-- The hardcoded permission taxonomy of `seedPermissions`. -/
def seedPermissionNames : List String :=
  ["profile.edit", "profile.view", "user.view", "user.delete", "user.store", "user.update"]

/-- The hardcoded role configuration of `seedRoles` (the Go `map` iteration
order is unspecified; the model fixes source order, which the final state is
insensitive to for the properties proved here). -/
def rolesConfig : List (String × List String) :=
  [("member", ["profile.edit", "profile.view"]),
   ("admin", ["profile.edit", "profile.view",
              "user.view", "user.delete", "user.store", "user.update"])]

/-- `Seeder` on the concrete spec, with transaction semantics: the store
after the call. -/
def runSeed (s : Store) : Store :=
  (seederWithContext s seedPermissionNames rolesConfig).1

/-- Well-formedness of a store: row names and primary keys are duplicate-free
and the auto-increment counters are fresh. -/
def StoreWF (s : Store) : Prop :=
  (s.perms.map Permission.name).Nodup ∧
  (s.perms.map Permission.id).Nodup ∧
  (s.roles.map Role.name).Nodup ∧
  (s.roles.map Role.id).Nodup ∧
  (∀ p ∈ s.perms, p.id < s.nextPermId) ∧
  (∀ r ∈ s.roles, r.id < s.nextRoleId)

/-! ### Interleaving model of `ConnWithContext`'s double-checked locking -/

/-- Program counter of one caller thread executing `ConnWithContext`:
acquire the read lock, check the handle, release; if absent, wait for the
write lock, re-check, and create.  `done h` records the handle the caller
returned with. -/
inductive TPC where
  | start
  | rlocked
  | wwait
  | wlocked
  | wcreate
  | done (h : Nat)
deriving Repr, DecidableEq

/-- Has the caller thread returned? -/
def TPC.isDone : TPC → Bool
  | .done _ => true
  | _ => false

/-- Shared state of the interleaving machine: the per-thread program
counters, the stored handle, the number of dials performed so far, and the
`sync.RWMutex` state (reader count and writer flag). -/
structure MState where
  threads : List TPC
  conn : Option Nat
  dials : Nat
  readers : Nat
  writer : Bool
deriving Repr, DecidableEq

/-- Is the thread inside the write-lock critical section? -/
def inCrit : TPC → Bool
  | .wlocked => true
  | .wcreate => true
  | _ => false

/-- One step of thread `i`.  `none` means the thread cannot step (blocked on
the lock, already done, or no such thread).  Each dial produces a fresh
handle numbered by the dial count, so distinct dials yield distinct
handles. -/
def tstep (s : MState) (i : Nat) : Option MState :=
  match s.threads[i]? with
  | none => none
  | some pc =>
    match pc with
    | .start =>
      if s.writer then none
      else some { s with threads := s.threads.set i .rlocked, readers := s.readers + 1 }
    | .rlocked =>
      match s.conn with
      | some h =>
        some { s with threads := s.threads.set i (.done h), readers := s.readers - 1 }
      | none =>
        some { s with threads := s.threads.set i .wwait, readers := s.readers - 1 }
    | .wwait =>
      if s.readers = 0 ∧ s.writer = false then
        some { s with threads := s.threads.set i .wlocked, writer := true }
      else none
    | .wlocked =>
      match s.conn with
      | some h => some { s with threads := s.threads.set i (.done h), writer := false }
      | none => some { s with threads := s.threads.set i .wcreate }
    | .wcreate =>
      some { s with
        threads := s.threads.set i (.done (s.dials + 1)),
        conn := some (s.dials + 1), dials := s.dials + 1, writer := false }
    | .done _ => none

/-- Run a schedule (a list of thread indices); the run is invalid (`none`)
if a scheduled thread cannot step. -/
def mrun (s : MState) : List Nat → Option MState
  | [] => some s
  | i :: rest =>
    match tstep s i with
    | none => none
    | some s' => mrun s' rest

/-- Initial state: `n` callers about to invoke `ConnWithContext`, no handle
established, lock free. -/
def mInit (n : Nat) : MState :=
  { threads := List.replicate n .start, conn := none, dials := 0,
    readers := 0, writer := false }

/-! ### Concrete instances used by the witnesses -/

/-- A concrete interceptor configuration (the default sensitive-field list
of `DefaultInterceptorConfig`, threshold 5). -/
def cfgW : InterceptorConfig :=
  { logLevel := .info, logRequests := true, logResponses := false,
    logMetadata := false,
    sensitiveFields := ["password", "token", "secret", "key", "authorization"],
    slowRequestThreshold := 5, serverName := "identity-server" }

/-- A rendered request payload containing a sensitive substring. -/
def reqSensitive : String := "name=bob Password=hunter2"

/-- A rendered request payload containing no sensitive substring. -/
def reqClean : String := "name=bob role=admin"

/-- A driver environment in which every external operation succeeds. -/
def envAllOk : DriverEnv := { dialOk := true, pingOk := true, closeOk := true }

/-- A manager with a DSN but no established handle. -/
def dbNoConn : Database := { dsn := "postgres://identity", connection := none }

/-- A manager with an established handle. -/
def dbConn7 : Database := { dsn := "postgres://identity", connection := some 7 }

/-- An attempt oracle that fails twice and succeeds on the third attempt. -/
def failTwice : Nat → Option String :=
  fun n => if n ≤ 2 then some "connection refused" else none

/-- An attempt oracle that always fails. -/
def failAlways : Nat → Option String := fun _ => some "connection refused"

/-- A schedule for two racing callers: both take the read-lock fast path,
find no handle, queue for the write lock; thread 0 wins, re-checks, dials;
thread 1 then takes the write lock, re-checks and adopts the handle. -/
def schedW : List Nat := [0, 1, 0, 1, 0, 0, 0, 1, 1]

/-- The state reached by `schedW` from `mInit 2`. -/
def finalW : MState :=
  { threads := [.done 1, .done 1], conn := some 1, dials := 1,
    readers := 0, writer := false }

/-- A concrete well-formed store with a pre-existing member role holding a
stale association that seeding must remove. -/
def sW : Store :=
  { perms := [{ id := 1, name := "profile.edit" }, { id := 2, name := "stale.perm" }],
    roles := [{ id := 1, name := "member" }],
    rolePerms := [(1, 2)],
    nextPermId := 3, nextRoleId := 2 }

/-- A concrete store for the atomicity witness, and a role configuration
referencing a permission name that can never resolve. -/
def badConfig : List (String × List String) := [("member", ["ghost.perm"])]

/-! ## Helper lemmas -/

/-- `beginsWith` decides the prefix relation. -/
theorem beginsWith_iff (sub s : List Char) :
    beginsWith sub s = true ↔ sub <+: s := by
  induction sub generalizing s with
  | nil => cases s <;> simp [beginsWith]
  | cons a sub ih =>
    cases s with
    | nil => simp [beginsWith]
    | cons b s => simp [beginsWith, List.cons_prefix_cons, ih, Bool.and_eq_true]

/-- `containsSub` decides the substring (contiguous infix) relation. -/
theorem containsSub_iff (sub s : List Char) :
    containsSub sub s = true ↔ sub <:+: s := by
  induction s with
  | nil => simp [containsSub, beginsWith_iff]
  | cons b s ih =>
    simp [containsSub, beginsWith_iff, ih, Bool.or_eq_true, List.infix_cons_iff]

/-- The sensitive-substring test of `sanitizeFields`, re-expressed as the
specification's "the rendered text contains a sensitive substring
(case-insensitive) anywhere". -/
theorem sensitiveHit_iff (objStr : String) (fields : List String) :
    sensitiveHit objStr fields = true ↔
      ∃ f ∈ fields, lowerStr f <:+: lowerStr objStr := by
  simp [sensitiveHit, List.any_eq_true, containsSub_iff]

/-! ## Claims -/

/-- Claim C2: a panicking handler is recovered by the interceptor, which
returns an Internal (13) RPC error carrying the panic value to that caller,
emits an error-severity log entry containing the panic value, a stack trace
and the elapsed duration, and still serves a subsequent unrelated call
normally (the interceptor returns instead of propagating the panic). -/
theorem claim2_panic_containment (config : InterceptorConfig) (req payload : String)
    (d : Nat) (req2 resp2 : String) (d2 : Nat) :
    (loggingUnaryInterceptor config req (.panicked payload d)).err =
      some (grpcCodeInternal, "panic recovered: " ++ payload) ∧
    (loggingUnaryInterceptor config req (.panicked payload d)).resp = none ∧
    (∃ e ∈ (loggingUnaryInterceptor config req (.panicked payload d)).logs,
      e.level = .error ∧ e.panicValue = some payload ∧
      e.stack = some debugStack ∧ e.duration = some d) ∧
    (loggingUnaryInterceptor config req2 (.ok resp2 d2)).err = none ∧
    (loggingUnaryInterceptor config req2 (.ok resp2 d2)).resp = some resp2 := by
  refine ⟨rfl, rfl, ?_, ?_, ?_⟩
  · refine ⟨panickedEntry payload d, ?_, rfl, rfl, rfl, rfl⟩
    simp [loggingUnaryInterceptor]
  · simp only [loggingUnaryInterceptor]
    split <;> rfl
  · simp only [loggingUnaryInterceptor]
    split <;> rfl

/-- Claim C4: with request logging enabled, the request entry emitted first
carries the payload replaced by the fixed redaction marker exactly when the
rendered payload contains a configured sensitive substring
case-insensitively anywhere (the source's boolean test, proved equivalent
to substring containment on the case-folded text), and the payload
unchanged otherwise. -/
theorem claim4_coarse_redaction (config : InterceptorConfig) (req : String)
    (outcome : HandlerOutcome) (hreq : config.logRequests = true) :
    (loggingUnaryInterceptor config req outcome).logs.head? =
      some (receivedEntry config req) ∧
    (sensitiveHit req config.sensitiveFields = true ↔
      ∃ f ∈ config.sensitiveFields, lowerStr f <:+: lowerStr req) ∧
    (sensitiveHit req config.sensitiveFields = true →
      (receivedEntry config req).request = some redactionMarker) ∧
    (sensitiveHit req config.sensitiveFields = false →
      (receivedEntry config req).request = some req) := by
  refine ⟨?_, sensitiveHit_iff req config.sensitiveFields, ?_, ?_⟩
  · cases outcome with
    | ok resp d =>
      simp only [loggingUnaryInterceptor]
      split <;> rfl
    | fail code msg d => rfl
    | panicked payload d => rfl
  · intro h
    simp [receivedEntry, hreq, sanitizeFields, h]
  · intro h
    simp [receivedEntry, hreq, sanitizeFields, h]

/-- Claim C4 witness: with the default sensitive-field list, a payload
containing "Password" is replaced by the marker and a clean payload passes
through, and the request entry heads the emitted log list. -/
theorem claim4_coarse_redaction_witness :
    (loggingUnaryInterceptor cfgW reqSensitive (.ok "r" 0)).logs.head? =
      some (receivedEntry cfgW reqSensitive) ∧
    (receivedEntry cfgW reqSensitive).request = some redactionMarker ∧
    (receivedEntry cfgW reqClean).request = some reqClean :=
  ⟨(claim4_coarse_redaction cfgW reqSensitive (.ok "r" 0) rfl).1,
   (claim4_coarse_redaction cfgW reqSensitive (.ok "r" 0) rfl).2.2.1 (by decide),
   (claim4_coarse_redaction cfgW reqClean (.ok "r" 0) rfl).2.2.2 (by decide)⟩

/-- Claim C8: a successful call whose duration exceeds the slow-request
threshold yields a completion entry at warning level flagged
`slow_request=true`; a successful call within the threshold yields a
completion entry at the configured level with no slow flag. -/
theorem claim8_slow_flag (config : InterceptorConfig) (req resp : String) (d : Nat) :
    (d > config.slowRequestThreshold →
      (loggingUnaryInterceptor config req (.ok resp d)).logs =
        [receivedEntry config req, slowEntry config resp d] ∧
      (slowEntry config resp d).level = .warn ∧
      (slowEntry config resp d).slowRequest = some true ∧
      (slowEntry config resp d).duration = some d) ∧
    (d ≤ config.slowRequestThreshold →
      (loggingUnaryInterceptor config req (.ok resp d)).logs =
        [receivedEntry config req, completedEntry config resp d] ∧
      (completedEntry config resp d).level = config.logLevel ∧
      (completedEntry config resp d).slowRequest = none ∧
      (completedEntry config resp d).duration = some d) := by
  constructor
  · intro h
    refine ⟨?_, rfl, rfl, rfl⟩
    simp [loggingUnaryInterceptor, h]
  · intro h
    refine ⟨?_, rfl, rfl, rfl⟩
    simp [loggingUnaryInterceptor, Nat.not_lt.mpr h]

/-- Claim C8 witness: with threshold 5, a 9-unit call is flagged slow at
warning level and a 3-unit call is not flagged, at the configured level. -/
theorem claim8_slow_flag_witness :
    ((loggingUnaryInterceptor cfgW "req" (.ok "resp" 9)).logs =
        [receivedEntry cfgW "req", slowEntry cfgW "resp" 9] ∧
      (slowEntry cfgW "resp" 9).level = .warn ∧
      (slowEntry cfgW "resp" 9).slowRequest = some true ∧
      (slowEntry cfgW "resp" 9).duration = some 9) ∧
    ((loggingUnaryInterceptor cfgW "req" (.ok "resp" 3)).logs =
        [receivedEntry cfgW "req", completedEntry cfgW "resp" 3] ∧
      (completedEntry cfgW "resp" 3).level = cfgW.logLevel ∧
      (completedEntry cfgW "resp" 3).slowRequest = none ∧
      (completedEntry cfgW "resp" 3).duration = some 3) :=
  ⟨(claim8_slow_flag cfgW "req" "resp" 9).1 (by decide),
   (claim8_slow_flag cfgW "req" "resp" 3).2 (by decide)⟩

/-- Claim C5 counterexample: on a manager with a DSN and no handle,
`HealthCheck` does NOT return a "not connected" error — it establishes a
connection (one dial), stores the handle and returns success, because it
obtains its handle through `ConnWithContext`, which creates one when
absent.  This refutes "HealthCheck(ctx) does not create a handle: it
returns a 'not connected' error without establishing a connection". -/
theorem claim5_counterexample :
    (healthCheck envAllOk dbNoConn).dials = 1 ∧
    (healthCheck envAllOk dbNoConn).db.connection = some 1 ∧
    (healthCheck envAllOk dbNoConn).result = .ok 1 := by
  refine ⟨rfl, rfl, rfl⟩

/-- Claim C5 (amended): when no handle exists, `HealthCheck` delegates to
the connection path and attempts to create one (exactly one dial when the
DSN is non-empty) rather than returning a "not connected" error; when a
handle exists, it pings that existing handle without dialing. -/
theorem claim5_healthcheck_amended (env : DriverEnv) (d : Database) :
    (d.connection = none →
      (healthCheck env d).dials = (createConnection env d).dials ∧
      (healthCheck env d).db = (createConnection env d).db ∧
      (d.dsn ≠ "" → (healthCheck env d).dials = 1)) ∧
    (∀ h, d.connection = some h →
      (healthCheck env d).dials = 0 ∧ (healthCheck env d).db = d ∧
      (env.pingOk = true → (healthCheck env d).result = .ok h) ∧
      (env.pingOk = false → (healthCheck env d).result = .error "falha no ping")) := by
  constructor
  · intro hnone
    have hc : connWithContext env d = createConnection env d := by
      unfold connWithContext
      rw [hnone]
    refine ⟨?_, ?_, ?_⟩
    · unfold healthCheck
      rw [hc]
      rcases hr : (createConnection env d).result with e | h
      · simp [hr]
      · simp only [hr]
        split <;> rfl
    · unfold healthCheck
      rw [hc]
      rcases hr : (createConnection env d).result with e | h
      · simp [hr]
      · simp only [hr]
        split <;> rfl
    · intro hdsn
      unfold healthCheck
      rw [hc]
      unfold createConnection
      rw [if_neg hdsn]
      cases henv : env.dialOk <;> cases hp : env.pingOk <;> simp [henv, hp]
  · intro h hsome
    have hc : connWithContext env d =
        { db := d, result := .ok h, dials := 0 } := by
      unfold connWithContext
      rw [hsome]
    refine ⟨?_, ?_, ?_, ?_⟩ <;>
      · unfold healthCheck
        rw [hc]
        cases henv : env.pingOk <;> simp [henv]

/-- Claim C5 witness for the amended statement: concrete managers with and
without a handle. -/
theorem claim5_healthcheck_amended_witness :
    (healthCheck envAllOk dbNoConn).dials = 1 ∧
    (healthCheck envAllOk dbConn7).dials = 0 ∧
    (healthCheck envAllOk dbConn7).result = .ok 7 :=
  ⟨((claim5_healthcheck_amended envAllOk dbNoConn).1 rfl).2.2 (by decide),
   ((claim5_healthcheck_amended envAllOk dbConn7).2 7 rfl).1,
   ((claim5_healthcheck_amended envAllOk dbConn7).2 7 rfl).2.2.1 rfl⟩

/-- Claim C7: with an empty DSN, `createConnection` fails immediately with
the "DSN must not be empty" error and performs no dial, and the bootstrap
`initializeDatabase` with an unset connection string fails before the retry
loop with zero attempts and zero sleeps. -/
theorem claim7_empty_dsn (env : DriverEnv) (d : Database)
    (outcome : Nat → Option String) (h : d.dsn = "") :
    createConnection env d =
      { db := d, result := .error "DSN não pode estar vazio", dials := 0 } ∧
    initializeDatabase "" outcome =
      { attempts := 0, sleeps := 0,
        result := .error "IDENTITY_DSN environment variable is not set" } := by
  constructor
  · unfold createConnection
    rw [if_pos h]
  · rfl

/-- Claim C7 witness: the empty-DSN manager and an arbitrary oracle. -/
theorem claim7_empty_dsn_witness :
    createConnection envAllOk { dsn := "", connection := none } =
      { db := { dsn := "", connection := none },
        result := .error "DSN não pode estar vazio", dials := 0 } ∧
    initializeDatabase "" failAlways =
      { attempts := 0, sleeps := 0,
        result := .error "IDENTITY_DSN environment variable is not set" } :=
  claim7_empty_dsn envAllOk { dsn := "", connection := none } failAlways rfl

/-- Claim C10: a successful `Close` resets the stored handle to `nil` (no
sticky Closed state): `Close` on a never-connected manager returns `nil`
and leaves it unchanged, closing again after a successful close also
returns `nil`, and a subsequent `ConnWithContext` on the closed manager
takes the fresh-connection path (`createConnection`) instead of failing. -/
theorem claim10_close_reset (env env2 : DriverEnv) (d : Database) :
    (d.connection = none → closeDB env d = (d, none)) ∧
    ((closeDB env d).2 = none → (closeDB env d).1.connection = none) ∧
    ((closeDB env d).2 = none →
      closeDB env2 (closeDB env d).1 = ((closeDB env d).1, none)) ∧
    ((closeDB env d).2 = none →
      connWithContext env2 (closeDB env d).1 =
        createConnection env2 (closeDB env d).1) := by
  rcases d with ⟨dsn, conn⟩
  cases conn with
  | none =>
    refine ⟨fun _ => rfl, fun _ => rfl, fun _ => rfl, fun _ => rfl⟩
  | some h =>
    cases hc : env.closeOk with
    | false =>
      refine ⟨?_, ?_, ?_, ?_⟩ <;> simp [closeDB, hc]
    | true =>
      refine ⟨?_, ?_, ?_, ?_⟩ <;> simp [closeDB, hc, connWithContext]

/-- Claim C10 witness: closing a connected manager succeeds, resets the
handle, is idempotent, and the next connection attempt dials afresh. -/
theorem claim10_close_reset_witness :
    (closeDB envAllOk dbConn7).2 = none ∧
    (closeDB envAllOk dbConn7).1.connection = none ∧
    closeDB envAllOk (closeDB envAllOk dbConn7).1 =
      ((closeDB envAllOk dbConn7).1, none) ∧
    connWithContext envAllOk (closeDB envAllOk dbConn7).1 =
      createConnection envAllOk (closeDB envAllOk dbConn7).1 :=
  ⟨rfl,
   (claim10_close_reset envAllOk envAllOk dbConn7).2.1 rfl,
   (claim10_close_reset envAllOk envAllOk dbConn7).2.2.1 rfl,
   (claim10_close_reset envAllOk envAllOk dbConn7).2.2.2 rfl⟩

/-- Claim C6: the bootstrap retry wrapper makes at most 3 attempts, sleeps
the fixed delay exactly after each failed non-final attempt and never after
a success (so failures on attempts 1 and 2 followed by success on 3 give
exactly two sleeps and elapsed sleeping time at least `2·d`), and on final
failure returns the fatal error naming the attempt count and the last
underlying cause. -/
theorem claim6_retry_wrapper (dsn : String) (outcome : Nat → Option String)
    (d : Nat) (hdsn : dsn ≠ "") :
    (initializeDatabase dsn outcome).attempts ≤ 3 ∧
    (outcome 1 = none →
      initializeDatabase dsn outcome =
        { attempts := 1, sleeps := 0, result := .ok () }) ∧
    (∀ e1, outcome 1 = some e1 → outcome 2 = none →
      initializeDatabase dsn outcome =
        { attempts := 2, sleeps := 1, result := .ok () }) ∧
    (∀ e1 e2, outcome 1 = some e1 → outcome 2 = some e2 → outcome 3 = none →
      initializeDatabase dsn outcome =
        { attempts := 3, sleeps := 2, result := .ok () } ∧
      2 * d ≤ (initializeDatabase dsn outcome).sleeps * d) ∧
    (∀ e1 e2 e3, outcome 1 = some e1 → outcome 2 = some e2 → outcome 3 = some e3 →
      initializeDatabase dsn outcome =
        { attempts := 3, sleeps := 2,
          result := .error ("failed to connect to database after " ++
            toString 3 ++ " attempts: " ++ e3) }) := by
  have hinit : initializeDatabase dsn outcome = retryAux outcome 3 3 1 0 0 := by
    unfold initializeDatabase
    rw [if_neg hdsn]
  refine ⟨?_, ?_, ?_, ?_, ?_⟩
  · rw [hinit]
    rcases h1 : outcome 1 with _ | e1
    · simp [retryAux, h1]
    · rcases h2 : outcome 2 with _ | e2
      · simp [retryAux, h1, h2]
      · rcases h3 : outcome 3 with _ | e3 <;> simp [retryAux, h1, h2, h3]
  · intro h1
    rw [hinit]
    simp [retryAux, h1]
  · intro e1 h1 h2
    rw [hinit]
    simp [retryAux, h1, h2]
  · intro e1 e2 h1 h2 h3
    rw [hinit]
    constructor
    · simp [retryAux, h1, h2, h3]
    · have : (retryAux outcome 3 3 1 0 0).sleeps = 2 := by
        simp [retryAux, h1, h2, h3]
      rw [this]
  · intro e1 e2 e3 h1 h2 h3
    rw [hinit]
    simp [retryAux, h1, h2, h3]

/-- Claim C6 witness: an oracle failing on attempts 1–2 and succeeding on 3
gives success with exactly two sleeps (elapsed ≥ 2·d for d = 2), and an
always-failing oracle gives the fatal error naming 3 attempts and the last
cause. -/
theorem claim6_retry_wrapper_witness :
    initializeDatabase "postgres://identity" failTwice =
      { attempts := 3, sleeps := 2, result := .ok () } ∧
    2 * 2 ≤ (initializeDatabase "postgres://identity" failTwice).sleeps * 2 ∧
    initializeDatabase "postgres://identity" failAlways =
      { attempts := 3, sleeps := 2,
        result := .error ("failed to connect to database after " ++
          toString 3 ++ " attempts: " ++ "connection refused") } :=
  ⟨((claim6_retry_wrapper "postgres://identity" failTwice 2 (by decide)).2.2.2.1
      "connection refused" "connection refused" rfl rfl rfl).1,
   ((claim6_retry_wrapper "postgres://identity" failTwice 2 (by decide)).2.2.2.1
      "connection refused" "connection refused" rfl rfl rfl).2,
   (claim6_retry_wrapper "postgres://identity" failAlways 2 (by decide)).2.2.2.2
      "connection refused" "connection refused" "connection refused" rfl rfl rfl⟩

/-! ### Lemmas for the interleaving model -/

/-- Position lookup succeeding implies the index is in bounds. -/
theorem lt_of_getElemQ {l : List TPC} {i : Nat} {a : TPC}
    (h : l[i]? = some a) : i < l.length := by
  rcases Nat.lt_or_ge i l.length with h1 | h1
  · exact h1
  · rw [List.getElem?_eq_none h1] at h
    cases h

/-- Lookup in a list updated at `i`: either the update is hit or the old
entry is returned. -/
theorem set_getElemQ_cases {l : List TPC} {i j : Nat} {X pj : TPC}
    (hi : i < l.length) (h : (l.set i X)[j]? = some pj) :
    (j = i ∧ pj = X) ∨ (j ≠ i ∧ l[j]? = some pj) := by
  by_cases hji : j = i
  · subst hji
    rw [List.getElem?_set_self hi] at h
    exact Or.inl ⟨rfl, (Option.some.inj h).symm⟩
  · refine Or.inr ⟨hji, ?_⟩
    rwa [List.getElem?_set_ne (Ne.symm hji)] at h

/-- Critical-section uniqueness survives overwriting one position with a
non-critical program counter. -/
theorem critUnique_set {l : List TPC} {i : Nat} {X : TPC} (hi : i < l.length)
    (hX : inCrit X = false)
    (hu : ∀ (a b : Nat) (pa pb : TPC), l[a]? = some pa → l[b]? = some pb →
      inCrit pa = true → inCrit pb = true → a = b) :
    ∀ (a b : Nat) (pa pb : TPC), (l.set i X)[a]? = some pa → (l.set i X)[b]? = some pb →
      inCrit pa = true → inCrit pb = true → a = b := by
  intro a b pa pb hpa hpb hca hcb
  rcases set_getElemQ_cases hi hpa with ⟨-, rfl⟩ | ⟨-, hpa'⟩
  · simp [hX] at hca
  · rcases set_getElemQ_cases hi hpb with ⟨-, rfl⟩ | ⟨-, hpb'⟩
    · simp [hX] at hcb
    · exact hu a b pa pb hpa' hpb' hca hcb

/-- The writer-flag characterisation survives overwriting a non-critical
position with a non-critical program counter when the flag is unchanged. -/
theorem writerCrit_set {l : List TPC} {i : Nat} {pcOld X : TPC} {w : Bool}
    (hi : i < l.length) (hpc : l[i]? = some pcOld)
    (hOld : inCrit pcOld = false) (hX : inCrit X = false)
    (hiff : w = true ↔ ∃ (a : Nat) (pa : TPC), l[a]? = some pa ∧ inCrit pa = true) :
    (w = true ↔ ∃ (a : Nat) (pa : TPC), (l.set i X)[a]? = some pa ∧ inCrit pa = true) := by
  constructor
  · intro hw
    rcases hiff.mp hw with ⟨a, pa, hpa, hca⟩
    have hai : a ≠ i := by
      intro h
      subst h
      rw [hpc] at hpa
      rw [← Option.some.inj hpa] at hca
      simp [hOld] at hca
    exact ⟨a, pa, by rw [List.getElem?_set_ne (Ne.symm hai)]; exact hpa, hca⟩
  · intro hex
    rcases hex with ⟨a, pa, hpa, hca⟩
    rcases set_getElemQ_cases hi hpa with ⟨-, rfl⟩ | ⟨-, hpa'⟩
    · simp [hX] at hca
    · exact hiff.mpr ⟨a, pa, hpa', hca⟩

/-- The about-to-create clause survives overwriting a position with anything
that is not `wcreate`, for an unchanged conclusion. -/
theorem wcreate_set {l : List TPC} {i : Nat} {X : TPC} {C : Prop}
    (hi : i < l.length) (hX : X ≠ TPC.wcreate)
    (hc : ∀ (a : Nat), l[a]? = some TPC.wcreate → C) :
    ∀ (a : Nat), (l.set i X)[a]? = some TPC.wcreate → C := by
  intro a ha
  rcases set_getElemQ_cases hi ha with ⟨-, h⟩ | ⟨-, ha'⟩
  · exact absurd h.symm hX
  · exact hc a ha'

/-- The done-thread clause survives overwriting a position with anything
that is not a `done` counter. -/
theorem done_set {l : List TPC} {i : Nat} {X : TPC} {P : Nat → Prop}
    (hX : ∀ h, X ≠ TPC.done h)
    (hd : ∀ h, TPC.done h ∈ l → P h) :
    ∀ h, TPC.done h ∈ l.set i X → P h := by
  intro h hmem
  rcases List.mem_or_eq_of_mem_set hmem with hold | heq
  · exact hd h hold
  · exact absurd heq.symm (hX h)

/-- Inductive invariant of the interleaving machine with `n` callers: the
thread list keeps its length; at most one thread is inside the write-lock
critical section, and the writer flag is set exactly when one is; a thread
about to create observed no handle; a finished thread returned the stored
handle; the dial counter is 0 before a handle exists and 1 afterwards, and
the only handle ever stored is the one produced by the single dial. -/
structure MInv (n : Nat) (s : MState) : Prop where
  lenEq : s.threads.length = n
  critUnique : ∀ (a b : Nat) (pa pb : TPC), s.threads[a]? = some pa → s.threads[b]? = some pb →
    inCrit pa = true → inCrit pb = true → a = b
  writerCrit : s.writer = true ↔
    ∃ (a : Nat) (pa : TPC), s.threads[a]? = some pa ∧ inCrit pa = true
  wcreateConn : ∀ (a : Nat), s.threads[a]? = some TPC.wcreate → s.conn = none
  doneConn : ∀ h, TPC.done h ∈ s.threads → s.conn = some h
  connNone : s.conn = none → s.dials = 0
  connSome : ∀ h, s.conn = some h → s.dials = 1 ∧ h = 1

/-- The invariant holds initially. -/
theorem minv_init (n : Nat) : MInv n (mInit n) := by
  refine ⟨by simp [mInit], ?_, ?_, ?_, ?_, fun _ => rfl, ?_⟩
  · intro a b pa pb hpa hpb hca hcb
    have hmem : pa ∈ List.replicate n TPC.start := List.getElem?_mem hpa
    rw [List.eq_of_mem_replicate hmem] at hca
    simp [inCrit] at hca
  · constructor
    · intro hw
      simp [mInit] at hw
    · intro hex
      rcases hex with ⟨a, pa, hpa, hca⟩
      have hmem : pa ∈ List.replicate n TPC.start := List.getElem?_mem hpa
      rw [List.eq_of_mem_replicate hmem] at hca
      simp [inCrit] at hca
  · intro a ha
    have hmem : TPC.wcreate ∈ List.replicate n TPC.start := List.getElem?_mem ha
    cases List.eq_of_mem_replicate hmem
  · intro h hmem
    have hmem' : TPC.done h ∈ List.replicate n TPC.start := hmem
    cases List.eq_of_mem_replicate hmem'
  · intro h hh
    simp [mInit] at hh

/-- The invariant is preserved by every machine step. -/
theorem minv_step {n : Nat} {s s' : MState} {i : Nat}
    (inv : MInv n s) (hstep : tstep s i = some s') : MInv n s' := by
  obtain ⟨T, conn, dials, readers, writer⟩ := s
  simp only [tstep] at hstep
  rcases hpc : T[i]? with _ | pc
  · rw [hpc] at hstep
    cases hstep
  rw [hpc] at hstep
  have hi : i < T.length := lt_of_getElemQ hpc
  cases pc with
  | start =>
    cases writer with
    | true => cases hstep
    | false =>
      obtain rfl := Option.some.inj hstep
      exact ⟨by simpa using inv.lenEq, critUnique_set hi rfl inv.critUnique,
        writerCrit_set hi hpc rfl rfl inv.writerCrit,
        wcreate_set hi (fun hh => nomatch hh) inv.wcreateConn,
        done_set (fun h hh => nomatch hh) inv.doneConn,
        inv.connNone, inv.connSome⟩
  | rlocked =>
    cases conn with
    | none =>
      obtain rfl := Option.some.inj hstep
      exact ⟨by simpa using inv.lenEq, critUnique_set hi rfl inv.critUnique,
        writerCrit_set hi hpc rfl rfl inv.writerCrit,
        wcreate_set hi (fun hh => nomatch hh) inv.wcreateConn,
        done_set (fun h hh => nomatch hh) inv.doneConn,
        inv.connNone, inv.connSome⟩
    | some h0 =>
      obtain rfl := Option.some.inj hstep
      refine ⟨by simpa using inv.lenEq, critUnique_set hi rfl inv.critUnique,
        writerCrit_set hi hpc rfl rfl inv.writerCrit,
        wcreate_set hi (fun hh => nomatch hh) inv.wcreateConn, ?_,
        inv.connNone, inv.connSome⟩
      intro h hmem
      rcases List.mem_or_eq_of_mem_set hmem with hold | heq
      · exact inv.doneConn h hold
      · cases heq
        rfl
  | wwait =>
    by_cases hcond : readers = 0 ∧ writer = false
    · rw [if_pos hcond] at hstep
      obtain rfl := Option.some.inj hstep
      have hkey : ∀ (a : Nat) (pa : TPC), (T.set i TPC.wlocked)[a]? = some pa →
          inCrit pa = true → a = i := by
        intro a pa hpa hca
        rcases set_getElemQ_cases hi hpa with ⟨h, -⟩ | ⟨-, hpa'⟩
        · exact h
        · have := inv.writerCrit.mpr ⟨a, pa, hpa', hca⟩
          rw [hcond.2] at this
          cases this
      refine ⟨by simpa using inv.lenEq, ?_, ?_,
        wcreate_set hi (fun hh => nomatch hh) inv.wcreateConn,
        done_set (fun h hh => nomatch hh) inv.doneConn,
        inv.connNone, inv.connSome⟩
      · intro a b pa pb hpa hpb hca hcb
        rw [hkey a pa hpa hca, hkey b pb hpb hcb]
      · constructor
        · intro _
          exact ⟨i, TPC.wlocked, List.getElem?_set_self hi, rfl⟩
        · intro _
          rfl
    · rw [if_neg hcond] at hstep
      cases hstep
  | wlocked =>
    cases conn with
    | none =>
      obtain rfl := Option.some.inj hstep
      have hwt : writer = true := inv.writerCrit.mpr ⟨i, TPC.wlocked, hpc, rfl⟩
      subst hwt
      have hkey : ∀ (a : Nat) (pa : TPC), (T.set i TPC.wcreate)[a]? = some pa →
          inCrit pa = true → a = i := by
        intro a pa hpa hca
        rcases set_getElemQ_cases hi hpa with ⟨h, -⟩ | ⟨-, hpa'⟩
        · exact h
        · exact inv.critUnique a i pa TPC.wlocked hpa' hpc hca rfl
      refine ⟨by simpa using inv.lenEq, ?_, ?_, fun a _ => rfl, ?_,
        inv.connNone, inv.connSome⟩
      · intro a b pa pb hpa hpb hca hcb
        rw [hkey a pa hpa hca, hkey b pb hpb hcb]
      · constructor
        · intro _
          exact ⟨i, TPC.wcreate, List.getElem?_set_self hi, rfl⟩
        · intro _
          rfl
      · intro h hmem
        rcases List.mem_or_eq_of_mem_set hmem with hold | heq
        · exact inv.doneConn h hold
        · cases heq
    | some h0 =>
      obtain rfl := Option.some.inj hstep
      refine ⟨by simpa using inv.lenEq, ?_, ?_, ?_, ?_,
        inv.connNone, inv.connSome⟩
      · intro a b pa pb hpa hpb hca hcb
        rcases set_getElemQ_cases hi hpa with ⟨-, rfl⟩ | ⟨hai, hpa'⟩
        · simp [inCrit] at hca
        · exact absurd (inv.critUnique a i pa TPC.wlocked hpa' hpc hca rfl) hai
      · constructor
        · intro hc
          cases hc
        · intro hex
          rcases hex with ⟨a, pa, hpa, hca⟩
          rcases set_getElemQ_cases hi hpa with ⟨-, rfl⟩ | ⟨hai, hpa'⟩
          · simp [inCrit] at hca
          · exact absurd (inv.critUnique a i pa TPC.wlocked hpa' hpc hca rfl) hai
      · intro a ha
        rcases set_getElemQ_cases hi ha with ⟨-, h⟩ | ⟨hai, ha'⟩
        · cases h
        · exact absurd (inv.critUnique a i TPC.wcreate TPC.wlocked ha' hpc rfl rfl) hai
      · intro h hmem
        rcases List.mem_or_eq_of_mem_set hmem with hold | heq
        · exact inv.doneConn h hold
        · cases heq
          rfl
  | wcreate =>
    obtain rfl := Option.some.inj hstep
    have hcn : conn = none := inv.wcreateConn i hpc
    subst hcn
    have hd0 : dials = 0 := inv.connNone rfl
    subst hd0
    refine ⟨by simpa using inv.lenEq, ?_, ?_, ?_, ?_, ?_, ?_⟩
    · intro a b pa pb hpa hpb hca hcb
      rcases set_getElemQ_cases hi hpa with ⟨-, rfl⟩ | ⟨hai, hpa'⟩
      · simp [inCrit] at hca
      · exact absurd (inv.critUnique a i pa TPC.wcreate hpa' hpc hca rfl) hai
    · constructor
      · intro hc
        cases hc
      · intro hex
        rcases hex with ⟨a, pa, hpa, hca⟩
        rcases set_getElemQ_cases hi hpa with ⟨-, rfl⟩ | ⟨hai, hpa'⟩
        · simp [inCrit] at hca
        · exact absurd (inv.critUnique a i pa TPC.wcreate hpa' hpc hca rfl) hai
    · intro a ha
      rcases set_getElemQ_cases hi ha with ⟨-, h⟩ | ⟨hai, ha'⟩
      · cases h
      · exact absurd (inv.critUnique a i TPC.wcreate TPC.wcreate ha' hpc rfl rfl) hai
    · intro h hmem
      rcases List.mem_or_eq_of_mem_set hmem with hold | heq
      · have := inv.doneConn h hold
        cases this
      · cases heq
        rfl
    · intro hc
      cases hc
    · intro h hh
      have hh' := Option.some.inj hh
      exact ⟨rfl, hh'.symm⟩
  | done h0 =>
    cases hstep

/-- The invariant is preserved by every run. -/
theorem minv_run {n : Nat} :
    ∀ (sched : List Nat) (s s' : MState), mrun s sched = some s' →
      MInv n s → MInv n s' := by
  intro sched
  induction sched with
  | nil =>
    intro s s' hrun inv
    obtain rfl := Option.some.inj hrun
    exact inv
  | cons j rest ih =>
    intro s s' hrun inv
    unfold mrun at hrun
    rcases hj : tstep s j with _ | s1
    · rw [hj] at hrun
      cases hrun
    · rw [hj] at hrun
      exact ih s1 s' hrun (minv_step inv hj)

/-- Claim C9: for `n` concurrent callers racing through `ConnWithContext`
before any handle exists, under any interleaving at most one dial ever
occurs, and in any state in which all callers have returned, exactly one
dial occurred and every caller received the same handle — the stored one. -/
theorem claim9_single_dial (n : Nat) (sched : List Nat) (s : MState)
    (hrun : mrun (mInit n) sched = some s) :
    s.dials ≤ 1 ∧
    (0 < n → (∀ pc ∈ s.threads, pc.isDone = true) →
      s.dials = 1 ∧ s.conn = some 1 ∧ ∀ pc ∈ s.threads, pc = TPC.done 1) := by
  have inv : MInv n s := minv_run sched (mInit n) s hrun (minv_init n)
  constructor
  · rcases hc : s.conn with _ | h
    · simp [inv.connNone hc]
    · exact Nat.le_of_eq (inv.connSome h hc).1
  · intro hn hdone
    have hne : s.threads ≠ [] := by
      intro hh
      have := inv.lenEq
      rw [hh] at this
      simp at this
      omega
    obtain ⟨pc0, hpc0⟩ := List.exists_mem_of_ne_nil s.threads hne
    have h0 := hdone pc0 hpc0
    have hcs : s.conn = some 1 ∧ s.dials = 1 := by
      cases pc0 with
      | done h =>
        have hc := inv.doneConn h hpc0
        obtain ⟨hd1, hh1⟩ := inv.connSome h hc
        subst hh1
        exact ⟨hc, hd1⟩
      | start => simp [TPC.isDone] at h0
      | rlocked => simp [TPC.isDone] at h0
      | wwait => simp [TPC.isDone] at h0
      | wlocked => simp [TPC.isDone] at h0
      | wcreate => simp [TPC.isDone] at h0
    refine ⟨hcs.2, hcs.1, ?_⟩
    intro pc hpc
    have hdc := hdone pc hpc
    cases pc with
    | done h' =>
      have := inv.doneConn h' hpc
      rw [hcs.1] at this
      rw [← Option.some.inj this]
    | start => simp [TPC.isDone] at hdc
    | rlocked => simp [TPC.isDone] at hdc
    | wwait => simp [TPC.isDone] at hdc
    | wlocked => simp [TPC.isDone] at hdc
    | wcreate => simp [TPC.isDone] at hdc

/-- Claim C9 witness: a concrete race of two callers in which thread 0 wins
the write lock, the single dial occurs, and both callers return handle 1. -/
theorem claim9_single_dial_witness :
    finalW.dials = 1 ∧ finalW.conn = some 1 ∧
      ∀ pc ∈ finalW.threads, pc = TPC.done 1 :=
  (claim9_single_dial 2 schedW finalW (by decide)).2 (by decide) (by decide)

/-! ### Lemmas for the seeder -/

/-- Bridge between the executable `List.contains` and membership. -/
theorem contains_iff_mem (l : List String) (a : String) :
    l.contains a = true ↔ a ∈ l :=
  List.elem_iff

/-- A successful permission lookup returns a row with that name, from the
table. -/
theorem findPermByName_some {s : Store} {n : String} {p : Permission}
    (h : findPermByName s n = some p) : p ∈ s.perms ∧ p.name = n :=
  ⟨List.mem_of_find?_eq_some h, by simpa using List.find?_some h⟩

/-- Permission lookup succeeds exactly for names present in the table. -/
theorem findPermByName_isSome_iff (s : Store) (n : String) :
    (findPermByName s n).isSome = true ↔ n ∈ s.perms.map Permission.name := by
  unfold findPermByName
  simp [List.find?_isSome, List.mem_map]

/-- A failed permission lookup means the name is absent. -/
theorem findPermByName_none {s : Store} {n : String}
    (h : findPermByName s n = none) : n ∉ s.perms.map Permission.name := by
  intro hmem
  have hs := (findPermByName_isSome_iff s n).mpr hmem
  rw [h] at hs
  simp at hs

/-- A successful role lookup returns a row with that name, from the table. -/
theorem findRoleByName_some {s : Store} {n : String} {r : Role}
    (h : findRoleByName s n = some r) : r ∈ s.roles ∧ r.name = n :=
  ⟨List.mem_of_find?_eq_some h, by simpa using List.find?_some h⟩

/-- Role lookup succeeds exactly for names present in the table. -/
theorem findRoleByName_isSome_iff (s : Store) (n : String) :
    (findRoleByName s n).isSome = true ↔ n ∈ s.roles.map Role.name := by
  unfold findRoleByName
  simp [List.find?_isSome, List.mem_map]

/-- A failed role lookup means the name is absent. -/
theorem findRoleByName_none {s : Store} {n : String}
    (h : findRoleByName s n = none) : n ∉ s.roles.map Role.name := by
  intro hmem
  have hs := (findRoleByName_isSome_iff s n).mpr hmem
  rw [h] at hs
  simp at hs

/-- With duplicate-free role names, `find?` by name retrieves any member
row. -/
theorem find_role_in_list {r : Role} :
    ∀ {l : List Role}, (l.map Role.name).Nodup → r ∈ l →
      l.find? (fun a => a.name == r.name) = some r := by
  intro l
  induction l with
  | nil => intro _ hr; cases hr
  | cons a l ih =>
    intro hnodup hr
    rcases List.mem_cons.mp hr with rfl | hmem
    · simp [List.find?_cons]
    · rw [List.map_cons, List.nodup_cons] at hnodup
      have hna : ¬(a.name == r.name) = true := by
        intro hb
        have hab : a.name = r.name := by simpa using hb
        exact hnodup.1 (hab ▸ List.mem_map_of_mem Role.name hmem)
      have hfalse : (a.name == r.name) = false := by
        simpa using hna
      simp only [List.find?_cons, hfalse]
      exact ih hnodup.2 hmem

/-- With duplicate-free role names, lookup finds any member row by its
name. -/
theorem findRoleByName_of_mem {s : Store} {r : Role}
    (hnodup : (s.roles.map Role.name).Nodup) (hr : r ∈ s.roles) :
    findRoleByName s r.name = some r := by
  unfold findRoleByName
  exact find_role_in_list hnodup hr

/-- `createPermIfMissing` when the permission exists. -/
theorem cpim_of_some {s : Store} {n : String} {p : Permission}
    (h : findPermByName s n = some p) : createPermIfMissing s n = s := by
  unfold createPermIfMissing
  rw [h]

/-- `createPermIfMissing` when the permission is absent. -/
theorem cpim_of_none {s : Store} {n : String}
    (h : findPermByName s n = none) :
    createPermIfMissing s n =
      { s with perms := s.perms ++ [{ id := s.nextPermId, name := n }],
               nextPermId := s.nextPermId + 1 } := by
  unfold createPermIfMissing
  rw [h]

/-- `createPermIfMissing` leaves roles untouched. -/
theorem cpim_roles (s : Store) (n : String) :
    (createPermIfMissing s n).roles = s.roles := by
  cases h : findPermByName s n
  · rw [cpim_of_none h]
  · rw [cpim_of_some h]

/-- `createPermIfMissing` leaves associations untouched. -/
theorem cpim_rolePerms (s : Store) (n : String) :
    (createPermIfMissing s n).rolePerms = s.rolePerms := by
  cases h : findPermByName s n
  · rw [cpim_of_none h]
  · rw [cpim_of_some h]

/-- `createPermIfMissing` leaves the role key counter untouched. -/
theorem cpim_nextRoleId (s : Store) (n : String) :
    (createPermIfMissing s n).nextRoleId = s.nextRoleId := by
  cases h : findPermByName s n
  · rw [cpim_of_none h]
  · rw [cpim_of_some h]

/-- Rows found before `createPermIfMissing` are still found, unchanged. -/
theorem cpim_find_stable {s : Store} {n m : String} {p : Permission}
    (h : findPermByName s m = some p) :
    findPermByName (createPermIfMissing s n) m = some p := by
  cases hf : findPermByName s n
  · rw [cpim_of_none hf]
    unfold findPermByName at h ⊢
    simp only []
    rw [List.find?_append, h]
    rfl
  · rw [cpim_of_some hf]
    exact h

/-- After `createPermIfMissing s n`, a row named `n` is found. -/
theorem cpim_finds (s : Store) (n : String) :
    ∃ p, findPermByName (createPermIfMissing s n) n = some p ∧ p.name = n := by
  cases hf : findPermByName s n with
  | none =>
    refine ⟨{ id := s.nextPermId, name := n }, ?_, rfl⟩
    rw [cpim_of_none hf]
    unfold findPermByName at hf ⊢
    simp only []
    rw [List.find?_append, hf]
    simp [List.find?_cons]
  | some p =>
    exact ⟨p, by rw [cpim_of_some hf]; exact hf, (findPermByName_some hf).2⟩

/-- Any name in the table after `createPermIfMissing` was already there or
is the created one. -/
theorem cpim_names {s : Store} {n m : String}
    (h : m ∈ (createPermIfMissing s n).perms.map Permission.name) :
    m ∈ s.perms.map Permission.name ∨ m = n := by
  cases hf : findPermByName s n
  · rw [cpim_of_none hf] at h
    simp at h
    rcases h with ⟨a, ha, han⟩ | h
    · exact Or.inl (List.mem_map.mpr ⟨a, ha, han⟩)
    · exact Or.inr h
  · rw [cpim_of_some hf] at h
    exact Or.inl h

/-- `createPermIfMissing` preserves duplicate-freedom of names. -/
theorem cpim_namesNodup {s : Store} {n : String}
    (h : (s.perms.map Permission.name).Nodup) :
    ((createPermIfMissing s n).perms.map Permission.name).Nodup := by
  cases hf : findPermByName s n
  · rw [cpim_of_none hf]
    have hne := findPermByName_none hf
    simp [List.nodup_append, h, hne]
  · rw [cpim_of_some hf]
    exact h

/-- `createPermIfMissing` preserves store well-formedness. -/
theorem cpim_wf {s : Store} {n : String} (h : StoreWF s) :
    StoreWF (createPermIfMissing s n) := by
  obtain ⟨h1, h2, h3, h4, h5, h6⟩ := h
  cases hf : findPermByName s n
  · rw [cpim_of_none hf]
    have hne := findPermByName_none hf
    refine ⟨by simp [List.nodup_append, h1, hne], ?_, h3, h4, ?_, h6⟩
    · have hid : s.nextPermId ∉ s.perms.map Permission.id := by
        intro hmem
        rcases List.mem_map.mp hmem with ⟨p, hp, hidp⟩
        have := h5 p hp
        omega
      simp [List.nodup_append, h2, hid]
    · intro p hp
      rcases List.mem_append.mp hp with hold | hnew
      · exact Nat.lt_trans (h5 p hold) (Nat.lt_succ_self _)
      · rw [List.mem_singleton.mp hnew]
        exact Nat.lt_succ_self _
  · rw [cpim_of_some hf]
    exact ⟨h1, h2, h3, h4, h5, h6⟩

/-- A present name makes `createPermIfMissing` a no-op. -/
theorem cpim_noop {s : Store} {n : String}
    (h : n ∈ s.perms.map Permission.name) : createPermIfMissing s n = s := by
  cases hf : findPermByName s n
  · exact absurd h (findPermByName_none hf)
  · exact cpim_of_some hf

/-- `seedPermissions` leaves roles untouched. -/
theorem sp_roles (names : List String) :
    ∀ s : Store, (seedPermissions s names).roles = s.roles := by
  induction names with
  | nil => intro s; rfl
  | cons n rest ih =>
    intro s
    exact (ih (createPermIfMissing s n)).trans (cpim_roles s n)

/-- `seedPermissions` leaves associations untouched. -/
theorem sp_rolePerms (names : List String) :
    ∀ s : Store, (seedPermissions s names).rolePerms = s.rolePerms := by
  induction names with
  | nil => intro s; rfl
  | cons n rest ih =>
    intro s
    exact (ih (createPermIfMissing s n)).trans (cpim_rolePerms s n)

/-- `seedPermissions` leaves the role key counter untouched. -/
theorem sp_nextRoleId (names : List String) :
    ∀ s : Store, (seedPermissions s names).nextRoleId = s.nextRoleId := by
  induction names with
  | nil => intro s; rfl
  | cons n rest ih =>
    intro s
    exact (ih (createPermIfMissing s n)).trans (cpim_nextRoleId s n)

/-- Rows found before `seedPermissions` are still found, unchanged. -/
theorem sp_find_stable (names : List String) :
    ∀ (s : Store) (m : String) (p : Permission), findPermByName s m = some p →
      findPermByName (seedPermissions s names) m = some p := by
  induction names with
  | nil => intro s m p h; exact h
  | cons n rest ih =>
    intro s m p h
    exact ih _ m p (cpim_find_stable h)

/-- After `seedPermissions`, every configured name is found. -/
theorem sp_finds (names : List String) :
    ∀ (s : Store) (n : String), n ∈ names →
      ∃ p, findPermByName (seedPermissions s names) n = some p ∧ p.name = n := by
  induction names with
  | nil => intro s n h; cases h
  | cons m rest ih =>
    intro s n h
    rcases List.mem_cons.mp h with rfl | hr
    · obtain ⟨p, hp, hn⟩ := cpim_finds s n
      exact ⟨p, sp_find_stable rest _ n p hp, hn⟩
    · exact ih _ n hr

/-- Any name in the table after `seedPermissions` was already there or is a
configured one. -/
theorem sp_names (names : List String) :
    ∀ (s : Store) (m : String),
      m ∈ (seedPermissions s names).perms.map Permission.name →
      m ∈ s.perms.map Permission.name ∨ m ∈ names := by
  induction names with
  | nil => intro s m h; exact Or.inl h
  | cons n rest ih =>
    intro s m h
    rcases ih _ m h with h1 | h1
    · rcases cpim_names h1 with h2 | heq
      · exact Or.inl h2
      · rw [heq]
        exact Or.inr (List.mem_cons_self n rest)
    · exact Or.inr (List.mem_cons_of_mem n h1)

/-- `seedPermissions` preserves duplicate-freedom of names. -/
theorem sp_namesNodup (names : List String) :
    ∀ s : Store, (s.perms.map Permission.name).Nodup →
      ((seedPermissions s names).perms.map Permission.name).Nodup := by
  induction names with
  | nil => intro s h; exact h
  | cons n rest ih =>
    intro s h
    exact ih _ (cpim_namesNodup h)

/-- `seedPermissions` preserves store well-formedness. -/
theorem sp_wf (names : List String) :
    ∀ s : Store, StoreWF s → StoreWF (seedPermissions s names) := by
  induction names with
  | nil => intro s h; exact h
  | cons n rest ih =>
    intro s h
    exact ih _ (cpim_wf h)

/-- `seedPermissions` is a no-op when every configured name is present. -/
theorem sp_noop (names : List String) :
    ∀ s : Store, (∀ n ∈ names, n ∈ s.perms.map Permission.name) →
      seedPermissions s names = s := by
  induction names with
  | nil => intro s _; rfl
  | cons n rest ih =>
    intro s h
    have hn := cpim_noop (h n (List.mem_cons_self n rest))
    show seedPermissions (createPermIfMissing s n) rest = s
    rw [hn]
    exact ih s (fun m hm => h m (List.mem_cons_of_mem n hm))

/-- Bulk resolution depends only on the permission table. -/
theorem findPermsIn_congr {s t : Store} (h : s.perms = t.perms)
    (names : List String) : findPermsIn s names = findPermsIn t names := by
  unfold findPermsIn
  rw [h]

/-- Name lookup depends only on the permission table. -/
theorem findPermByName_congr {s t : Store} (h : s.perms = t.perms)
    (n : String) : findPermByName s n = findPermByName t n := by
  unfold findPermByName
  rw [h]

/-- Filtering rows by a predicate on names has the same length as filtering
the name column. -/
theorem length_filter_name (l : List Permission) (q : String → Bool) :
    (l.filter (fun p => q p.name)).length =
      ((l.map Permission.name).filter q).length := by
  induction l with
  | nil => rfl
  | cons p l ih =>
    cases hq : q p.name <;> simp [List.filter_cons, hq, ih]

/-- With duplicate-free names on both sides and every requested name
present, the filtered name column has exactly the requested length. -/
theorem nl_filter_length_eq {nl pns : List String}
    (hnodup : nl.Nodup) (hp : pns.Nodup) (hmem : ∀ n ∈ pns, n ∈ nl) :
    (nl.filter (fun n => pns.contains n)).length = pns.length := by
  have hA : (nl.filter (fun n => pns.contains n)).Nodup := hnodup.filter _
  have hsub1 : nl.filter (fun n => pns.contains n) ⊆ pns := by
    intro x hx
    exact (contains_iff_mem pns x).mp (List.mem_filter.mp hx).2
  have hsub2 : pns ⊆ nl.filter (fun n => pns.contains n) := by
    intro x hx
    exact List.mem_filter.mpr ⟨hmem x hx, (contains_iff_mem pns x).mpr hx⟩
  exact Nat.le_antisymm (hA.subperm hsub1).length_le (hp.subperm hsub2).length_le

/-- Resolution returns exactly as many rows as requested names when all
resolve (duplicate-free tables). -/
theorem findPermsIn_length_eq {s : Store} {pns : List String}
    (hnodup : (s.perms.map Permission.name).Nodup) (hp : pns.Nodup)
    (hmem : ∀ n ∈ pns, n ∈ s.perms.map Permission.name) :
    (findPermsIn s pns).length = pns.length := by
  unfold findPermsIn
  rw [length_filter_name s.perms (fun n => pns.contains n)]
  exact nl_filter_length_eq hnodup hp hmem

/-- Resolution comes up short when some requested name is absent
(duplicate-free tables). -/
theorem findPermsIn_length_lt {s : Store} {pns : List String} {n0 : String}
    (hnodup : (s.perms.map Permission.name).Nodup)
    (hn0 : n0 ∈ pns) (hmiss : n0 ∉ s.perms.map Permission.name) :
    (findPermsIn s pns).length < pns.length := by
  unfold findPermsIn
  rw [length_filter_name s.perms (fun n => pns.contains n)]
  have hA : ((s.perms.map Permission.name).filter (fun n => pns.contains n)).Nodup :=
    hnodup.filter _
  have hsub : (s.perms.map Permission.name).filter (fun n => pns.contains n) ⊆
      pns.erase n0 := by
    intro x hx
    rcases List.mem_filter.mp hx with ⟨hxl, hxp⟩
    have hxp' := (contains_iff_mem pns x).mp hxp
    have hxne : x ≠ n0 := fun hh => hmiss (hh ▸ hxl)
    exact (List.mem_erase_of_ne hxne).mpr hxp'
  have hle := (hA.subperm hsub).length_le
  have herase : (pns.erase n0).length = pns.length - 1 :=
    List.length_erase_of_mem hn0
  have hpos : 0 < pns.length := List.length_pos_of_mem hn0
  omega

/-- `createRoleWithPermissions` unfolded when the role already exists. -/
theorem crwp_of_found {s : Store} {rn : String} {pns : List String} {r : Role}
    (hf : findRoleByName s rn = some r) :
    createRoleWithPermissions s rn pns =
      (if (findPermsIn s pns).length ≠ pns.length then
        Except.error ("nem todas as permissões foram encontradas para a role " ++ rn)
      else
        Except.ok { s with rolePerms :=
          s.rolePerms.filter (fun rp => rp.1 != r.id) ++
            (findPermsIn s pns).map (fun p => (r.id, p.id)) }) := by
  unfold createRoleWithPermissions
  rw [hf]

/-- `createRoleWithPermissions` unfolded when the role is created. -/
theorem crwp_of_new {s : Store} {rn : String} {pns : List String}
    (hf : findRoleByName s rn = none) :
    createRoleWithPermissions s rn pns =
      (if (findPermsIn s pns).length ≠ pns.length then
        Except.error ("nem todas as permissões foram encontradas para a role " ++ rn)
      else
        Except.ok { s with
          roles := s.roles ++ [{ id := s.nextRoleId, name := rn }],
          nextRoleId := s.nextRoleId + 1,
          rolePerms := s.rolePerms.filter (fun rp => rp.1 != s.nextRoleId) ++
            (findPermsIn s pns).map (fun p => (s.nextRoleId, p.id)) }) := by
  unfold createRoleWithPermissions
  rw [hf]
  rfl

/-- A successful `createRoleWithPermissions` never touches the permission
table or its key counter. -/
theorem crwp_ok_perms {s s' : Store} {rn : String} {pns : List String}
    (h : createRoleWithPermissions s rn pns = .ok s') :
    s'.perms = s.perms := by
  cases hf : findRoleByName s rn
  · rw [crwp_of_new hf] at h
    by_cases hlen : (findPermsIn s pns).length ≠ pns.length
    · rw [if_pos hlen] at h
      cases h
    · rw [if_neg hlen] at h
      rw [← Except.ok.inj h]
  · rw [crwp_of_found hf] at h
    by_cases hlen : (findPermsIn s pns).length ≠ pns.length
    · rw [if_pos hlen] at h
      cases h
    · rw [if_neg hlen] at h
      rw [← Except.ok.inj h]

/-- `createRoleWithPermissions` aborts when a requested permission name does
not resolve (duplicate-free permission names). -/
theorem crwp_error_of_missing {s : Store} {rn : String} {pns : List String}
    {n0 : String} (hnodup : (s.perms.map Permission.name).Nodup)
    (hn0 : n0 ∈ pns) (hmiss : n0 ∉ s.perms.map Permission.name) :
    createRoleWithPermissions s rn pns =
      .error ("nem todas as permissões foram encontradas para a role " ++ rn) := by
  have hlt : (findPermsIn s pns).length < pns.length :=
    findPermsIn_length_lt hnodup hn0 hmiss
  have hne : (findPermsIn s pns).length ≠ pns.length := Nat.ne_of_lt hlt
  cases hf : findRoleByName s rn
  · rw [crwp_of_new hf, if_pos hne]
  · rw [crwp_of_found hf, if_pos hne]

/-- Full characterisation of a successful `createRoleWithPermissions` on a
well-formed store in which every requested name resolves. -/
theorem crwp_ok (s : Store) (rn : String) (pns : List String)
    (hwf : StoreWF s) (hpns : pns.Nodup)
    (hmem : ∀ n ∈ pns, n ∈ s.perms.map Permission.name) :
    ∃ (r : Role) (s' : Store),
      createRoleWithPermissions s rn pns = .ok s' ∧
      r.name = rn ∧ r ∈ s'.roles ∧
      s'.perms = s.perms ∧
      s'.nextPermId = s.nextPermId ∧
      s'.rolePerms = s.rolePerms.filter (fun rp => rp.1 != r.id) ++
        (findPermsIn s pns).map (fun p => (r.id, p.id)) ∧
      findRoleByName s' rn = some r ∧
      (∀ (m : String) (r0 : Role), findRoleByName s m = some r0 →
        findRoleByName s' m = some r0) ∧
      (s'.roles = s.roles ∨ s'.roles = s.roles ++ [r]) ∧
      StoreWF s' := by
  obtain ⟨h1, h2, h3, h4, h5, h6⟩ := hwf
  have hlen : (findPermsIn s pns).length = pns.length :=
    findPermsIn_length_eq h1 hpns hmem
  have hcond : ¬(findPermsIn s pns).length ≠ pns.length := by
    rw [hlen]
    exact fun hh => hh rfl
  cases hf : findRoleByName s rn with
  | some r =>
    refine ⟨r, { s with rolePerms :=
        s.rolePerms.filter (fun rp => rp.1 != r.id) ++
          (findPermsIn s pns).map (fun p => (r.id, p.id)) },
      ?_, (findRoleByName_some hf).2, (findRoleByName_some hf).1,
      rfl, rfl, rfl, hf, fun m r0 h => h, Or.inl rfl,
      ⟨h1, h2, h3, h4, h5, h6⟩⟩
    rw [crwp_of_found hf, if_neg hcond]
  | none =>
    have hrn : rn ∉ s.roles.map Role.name := findRoleByName_none hf
    have hid : s.nextRoleId ∉ s.roles.map Role.id := by
      intro hmem'
      rcases List.mem_map.mp hmem' with ⟨r0, hr0, hidr⟩
      have := h6 r0 hr0
      omega
    refine ⟨{ id := s.nextRoleId, name := rn },
      { s with
        roles := s.roles ++ [{ id := s.nextRoleId, name := rn }],
        nextRoleId := s.nextRoleId + 1,
        rolePerms := s.rolePerms.filter (fun rp => rp.1 != s.nextRoleId) ++
          (findPermsIn s pns).map (fun p => (s.nextRoleId, p.id)) },
      ?_, rfl, ?_, rfl, rfl, rfl, ?_, ?_, Or.inr rfl, ?_⟩
    · rw [crwp_of_new hf, if_neg hcond]
    · simp
    · unfold findRoleByName at hf ⊢
      simp only []
      rw [List.find?_append, hf]
      simp [List.find?_cons]
    · intro m r0 h
      unfold findRoleByName at h ⊢
      simp only []
      rw [List.find?_append, h]
      rfl
    · refine ⟨h1, h2, ?_, ?_, h5, ?_⟩
      · simp [List.nodup_append, h3, hrn]
      · simp [List.nodup_append, h4, hid]
      · intro r0 hr0
        rcases List.mem_append.mp hr0 with hold | hnew
        · exact Nat.lt_trans (h6 r0 hold) (Nat.lt_succ_self _)
        · rw [List.mem_singleton.mp hnew]
          exact Nat.lt_succ_self _

/-- If some role in the configuration requests a permission name that is
absent from the table (and cannot appear later, since role seeding never
creates permissions), role seeding returns an error. -/
theorem seedRoles_error_of_missing :
    ∀ (config : List (String × List String)) (st : Store) (rn : String)
      (pns : List String) (n0 : String),
      (rn, pns) ∈ config → n0 ∈ pns →
      (st.perms.map Permission.name).Nodup →
      n0 ∉ st.perms.map Permission.name →
      ∃ e, seedRoles st config = .error e := by
  intro config
  induction config with
  | nil =>
    intro st rn pns n0 hmem
    cases hmem
  | cons rc rest ih =>
    intro st rn pns n0 hmem hn0 hnodup hmiss
    rcases hc : createRoleWithPermissions st rc.1 rc.2 with e | st'
    · refine ⟨e, ?_⟩
      show (match createRoleWithPermissions st rc.1 rc.2 with
        | .error e => .error e
        | .ok s' => seedRoles s' rest) = Except.error e
      rw [hc]
    · rcases List.mem_cons.mp hmem with heq | hmem'
      · cases heq
        rw [crwp_error_of_missing hnodup hn0 hmiss] at hc
        cases hc
      · have hperms := crwp_ok_perms hc
        have hnodup' : (st'.perms.map Permission.name).Nodup := by
          rw [hperms]
          exact hnodup
        have hmiss' : n0 ∉ st'.perms.map Permission.name := by
          rw [hperms]
          exact hmiss
        obtain ⟨e, he⟩ := ih st' rn pns n0 hmem' hn0 hnodup' hmiss'
        refine ⟨e, ?_⟩
        show (match createRoleWithPermissions st rc.1 rc.2 with
          | .error e => .error e
          | .ok s' => seedRoles s' rest) = Except.error e
        rw [hc]
        exact he

/-- Claim C3: `Seed` is atomic: whenever the transaction body fails, the
committed store is exactly the pre-call store, and in particular a role
whose configured permission name does not resolve (it is neither in the
permission list nor already in a duplicate-free table) makes the whole
transaction fail and roll back, leaving the datastore unchanged.  The
rollback-on-error semantics of `db.Transaction` is modelled in
`seederWithContext`. -/
theorem claim3_seed_atomic (s : Store) (permList : List String)
    (config : List (String × List String)) :
    (∀ e, seedTx s permList config = .error e →
      seederWithContext s permList config = (s, some e)) ∧
    (∀ (rn : String) (pns : List String) (n0 : String),
      (rn, pns) ∈ config → n0 ∈ pns → n0 ∉ permList →
      n0 ∉ s.perms.map Permission.name →
      (s.perms.map Permission.name).Nodup →
      ∃ e, seedTx s permList config = .error e ∧
        seederWithContext s permList config = (s, some e)) := by
  have hrw : ∀ e, seedTx s permList config = .error e →
      seederWithContext s permList config = (s, some e) := by
    intro e he
    unfold seederWithContext
    rw [he]
  refine ⟨hrw, ?_⟩
  intro rn pns n0 hcfg hn0 hnp hns hnodup
  have hnodup' : ((seedPermissions s permList).perms.map Permission.name).Nodup :=
    sp_namesNodup permList s hnodup
  have hmiss' : n0 ∉ (seedPermissions s permList).perms.map Permission.name := by
    intro hmem
    rcases sp_names permList s n0 hmem with h | h
    · exact hns h
    · exact hnp h
  obtain ⟨e, he⟩ := seedRoles_error_of_missing config (seedPermissions s permList)
    rn pns n0 hcfg hn0 hnodup' hmiss'
  have he' : seedTx s permList config = .error e := he
  exact ⟨e, he', hrw e he'⟩

/-- Claim C3 witness: a configuration whose member role requests the
unresolvable name "ghost.perm" makes the transaction fail and leave the
concrete store untouched. -/
theorem claim3_seed_atomic_witness :
    ∃ e, seedTx sW seedPermissionNames badConfig = .error e ∧
      seederWithContext sW seedPermissionNames badConfig = (sW, some e) :=
  (claim3_seed_atomic sW seedPermissionNames badConfig).2 "member" ["ghost.perm"]
    "ghost.perm" (by decide) (by decide) (by decide) (by decide) (by decide)

/-- Keeping rows whose role key matches keeps everything when all match. -/
theorem rp_filter_beq_of_all {rid : Nat} {l : List (Nat × Nat)}
    (h : ∀ rp ∈ l, rp.1 = rid) :
    l.filter (fun rp => rp.1 == rid) = l := by
  rw [List.filter_eq_self]
  intro a ha
  simp [h a ha]

/-- Keeping rows whose role key matches keeps nothing when none match. -/
theorem rp_filter_beq_nil {rid : Nat} {l : List (Nat × Nat)}
    (h : ∀ rp ∈ l, rp.1 ≠ rid) :
    l.filter (fun rp => rp.1 == rid) = [] := by
  rw [List.filter_eq_nil_iff]
  intro a ha
  simp [h a ha]

/-- Clearing rows of one role keeps everything when none belong to it. -/
theorem rp_filter_bne_of_all {rid : Nat} {l : List (Nat × Nat)}
    (h : ∀ rp ∈ l, rp.1 ≠ rid) :
    l.filter (fun rp => rp.1 != rid) = l := by
  rw [List.filter_eq_self]
  intro a ha
  simp [h a ha]

/-- Clearing rows of one role removes everything when all belong to it. -/
theorem rp_filter_bne_nil {rid : Nat} {l : List (Nat × Nat)}
    (h : ∀ rp ∈ l, rp.1 = rid) :
    l.filter (fun rp => rp.1 != rid) = [] := by
  rw [List.filter_eq_nil_iff]
  intro a ha
  simp [h a ha]

/-- Rows surviving a clear do not belong to the cleared role. -/
theorem mem_filter_bne_ne {rid : Nat} {l : List (Nat × Nat)} :
    ∀ rp ∈ l.filter (fun rp => rp.1 != rid), rp.1 ≠ rid := by
  intro rp h
  have hb := (List.mem_filter.mp h).2
  simpa using hb

/-- Appended association rows all carry the appending role's key. -/
theorem mem_map_pair_fst {rid : Nat} {ps : List Permission} :
    ∀ rp ∈ ps.map (fun p => (rid, p.id)), rp.1 = rid := by
  intro rp h
  rcases List.mem_map.mp h with ⟨p, hp, rfl⟩
  rfl

/-- Role lookup depends only on the role table. -/
theorem findRoleByName_rolesCongr {s t : Store} (h : s.roles = t.roles)
    (n : String) : findRoleByName s n = findRoleByName t n := by
  unfold findRoleByName
  rw [h]

/-- Two stores agreeing column by column are equal. -/
theorem store_ext {a b : Store} (h1 : a.perms = b.perms)
    (h2 : a.roles = b.roles) (h3 : a.rolePerms = b.rolePerms)
    (h4 : a.nextPermId = b.nextPermId) (h5 : a.nextRoleId = b.nextRoleId) :
    a = b := by
  cases a
  cases b
  rw [Store.mk.injEq]
  exact ⟨h1, h2, h3, h4, h5⟩

/-- Overwriting the association table with its own value is the identity. -/
theorem store_rp_ext (t : Store) (X : List (Nat × Nat)) (h : X = t.rolePerms) :
    { t with rolePerms := X } = t := by
  cases t
  rw [h]

/-- Claim C1: seeding is convergent and idempotent.  On any well-formed
store, `Seed` commits (no error); afterwards the store is well-formed (no
duplicate permissions or roles); for every role of the hardcoded spec the
role exists and its association rows are exactly the resolved permission
set of the spec — regardless of the prior association state, stale rows
are removed and missing ones added; and running `Seed` again yields the
identical store row for row. -/
theorem claim1_seed_convergent_idempotent (s : Store) (hwf : StoreWF s) :
    (seederWithContext s seedPermissionNames rolesConfig).2 = none ∧
    StoreWF (runSeed s) ∧
    (∀ rc ∈ rolesConfig, ∃ r : Role,
      findRoleByName (runSeed s) rc.1 = some r ∧
      ((runSeed s).rolePerms.filter (fun rp => rp.1 == r.id)).map Prod.snd =
        (findPermsIn (runSeed s) rc.2).map Permission.id) ∧
    runSeed (runSeed s) = runSeed s := by
  -- phase 1: permission seeding
  have hwf1 : StoreWF (seedPermissions s seedPermissionNames) :=
    sp_wf seedPermissionNames s hwf
  have hnames1 : ∀ n ∈ seedPermissionNames,
      n ∈ (seedPermissions s seedPermissionNames).perms.map Permission.name := by
    intro n hn
    obtain ⟨p, hp, hpn⟩ := sp_finds seedPermissionNames s n hn
    have hpm := (findPermByName_some hp).1
    rw [← hpn]
    exact List.mem_map_of_mem Permission.name hpm
  -- phase 2: the member role
  have hsubm : ∀ n ∈ ["profile.edit", "profile.view"], n ∈ seedPermissionNames := by
    decide
  have hmemm : ∀ n ∈ ["profile.edit", "profile.view"],
      n ∈ (seedPermissions s seedPermissionNames).perms.map Permission.name :=
    fun n hn => hnames1 n (hsubm n hn)
  obtain ⟨rm, s2, hok2, hnm, hrm2, hperms2, hnpi2, hrp2, hfindm2, hstab2, hroles2, hwf2⟩ :=
    crwp_ok (seedPermissions s seedPermissionNames) "member"
      ["profile.edit", "profile.view"] hwf1 (by decide) hmemm
  -- phase 3: the admin role
  have hsuba : ∀ n ∈ ["profile.edit", "profile.view",
      "user.view", "user.delete", "user.store", "user.update"],
      n ∈ seedPermissionNames := by
    decide
  have hmema : ∀ n ∈ ["profile.edit", "profile.view",
      "user.view", "user.delete", "user.store", "user.update"],
      n ∈ s2.perms.map Permission.name := by
    intro n hn
    rw [hperms2]
    exact hnames1 n (hsuba n hn)
  obtain ⟨ra, s3, hok3, hna, hra3, hperms3, hnpi3, hrp3, hfinda3, hstab3, hroles3, hwf3⟩ :=
    crwp_ok s2 "admin" ["profile.edit", "profile.view",
      "user.view", "user.delete", "user.store", "user.update"] hwf2 (by decide) hmema
  -- the run commits and produces s3
  have hsr1 : seedRoles (seedPermissions s seedPermissionNames) rolesConfig =
      .ok s3 := by
    simp only [rolesConfig, seedRoles, hok2, hok3]
  have htx : seedTx s seedPermissionNames rolesConfig = .ok s3 := hsr1
  have hrun : runSeed s = s3 := by
    unfold runSeed seederWithContext
    rw [htx]
  have hcommit : (seederWithContext s seedPermissionNames rolesConfig).2 = none := by
    unfold seederWithContext
    rw [htx]
  -- distinct role keys for member and admin
  have hperms31 : s3.perms = (seedPermissions s seedPermissionNames).perms :=
    hperms3.trans hperms2
  have hrm3 : rm ∈ s3.roles := by
    rcases hroles3 with h | h
    · rw [h]
      exact hrm2
    · rw [h]
      exact List.mem_append_left _ hrm2
  have hne : rm ≠ ra := by
    intro h
    rw [h, hna] at hnm
    exact absurd hnm (by decide)
  obtain ⟨hw31, hw32, hw33, hw34, hw35, hw36⟩ := hwf3
  have hidne : rm.id ≠ ra.id := by
    intro hid
    exact hne (List.inj_on_of_nodup_map hw34 hrm3 hra3 hid)
  -- association-table bookkeeping
  have hrp2' : s2.rolePerms =
      s.rolePerms.filter (fun rp => rp.1 != rm.id) ++
        (findPermsIn (seedPermissions s seedPermissionNames)
          ["profile.edit", "profile.view"]).map (fun p => (rm.id, p.id)) := by
    rw [hrp2, sp_rolePerms]
  have hMfst : ∀ rp ∈ (findPermsIn (seedPermissions s seedPermissionNames)
      ["profile.edit", "profile.view"]).map (fun p => (rm.id, p.id)),
      rp.1 = rm.id := mem_map_pair_fst
  have hAfst : ∀ rp ∈ (findPermsIn s2 ["profile.edit", "profile.view",
      "user.view", "user.delete", "user.store", "user.update"]).map
        (fun p => (ra.id, p.id)), rp.1 = ra.id := mem_map_pair_fst
  have hBne : ∀ rp ∈ s.rolePerms.filter (fun rp => rp.1 != rm.id),
      rp.1 ≠ rm.id := mem_filter_bne_ne
  have hDFne_rm : ∀ rp ∈ (s.rolePerms.filter (fun rp => rp.1 != rm.id)).filter
      (fun rp => rp.1 != ra.id), rp.1 ≠ rm.id := by
    intro rp h
    exact hBne rp (List.mem_filter.mp h).1
  have hDFne_ra : ∀ rp ∈ (s.rolePerms.filter (fun rp => rp.1 != rm.id)).filter
      (fun rp => rp.1 != ra.id), rp.1 ≠ ra.id := mem_filter_bne_ne
  have hMne_ra : ∀ rp ∈ (findPermsIn (seedPermissions s seedPermissionNames)
      ["profile.edit", "profile.view"]).map (fun p => (rm.id, p.id)),
      rp.1 ≠ ra.id := by
    intro rp h
    rw [hMfst rp h]
    exact hidne
  have hAne_rm : ∀ rp ∈ (findPermsIn s2 ["profile.edit", "profile.view",
      "user.view", "user.delete", "user.store", "user.update"]).map
        (fun p => (ra.id, p.id)), rp.1 ≠ rm.id := by
    intro rp h
    rw [hAfst rp h]
    exact hidne.symm
  have hrp3' : s3.rolePerms =
      ((s.rolePerms.filter (fun rp => rp.1 != rm.id)).filter
          (fun rp => rp.1 != ra.id) ++
        (findPermsIn (seedPermissions s seedPermissionNames)
          ["profile.edit", "profile.view"]).map (fun p => (rm.id, p.id))) ++
      (findPermsIn s2 ["profile.edit", "profile.view",
        "user.view", "user.delete", "user.store", "user.update"]).map
          (fun p => (ra.id, p.id)) := by
    rw [hrp3, hrp2', List.filter_append, rp_filter_bne_of_all hMne_ra]
  -- exact association sets after one run
  have hmemAssoc : s3.rolePerms.filter (fun rp => rp.1 == rm.id) =
      (findPermsIn (seedPermissions s seedPermissionNames)
        ["profile.edit", "profile.view"]).map (fun p => (rm.id, p.id)) := by
    rw [hrp3', List.filter_append, List.filter_append]
    rw [rp_filter_beq_nil hDFne_rm, rp_filter_beq_of_all hMfst,
      rp_filter_beq_nil hAne_rm]
    simp
  have hadmAssoc : s3.rolePerms.filter (fun rp => rp.1 == ra.id) =
      (findPermsIn s2 ["profile.edit", "profile.view",
        "user.view", "user.delete", "user.store", "user.update"]).map
          (fun p => (ra.id, p.id)) := by
    rw [hrp3', List.filter_append, List.filter_append]
    rw [rp_filter_beq_nil hDFne_ra, rp_filter_beq_nil hMne_ra,
      rp_filter_beq_of_all hAfst]
    simp
  refine ⟨hcommit, by rw [hrun]; exact ⟨hw31, hw32, hw33, hw34, hw35, hw36⟩, ?_, ?_⟩
  · -- per-role exactness
    intro rc hrc
    simp only [rolesConfig, List.mem_cons, List.mem_singleton] at hrc
    rcases hrc with rfl | hrc
    · refine ⟨rm, ?_, ?_⟩
      · rw [hrun]
        exact hstab3 "member" rm hfindm2
      · rw [hrun]
        have hfpim : findPermsIn s3 ["profile.edit", "profile.view"] =
            findPermsIn (seedPermissions s seedPermissionNames)
              ["profile.edit", "profile.view"] := findPermsIn_congr hperms31 _
        rw [hmemAssoc, hfpim, List.map_map]
        rfl
    · rcases hrc with rfl | hrc
      · refine ⟨ra, ?_, ?_⟩
        · rw [hrun]
          exact hfinda3
        · rw [hrun]
          have hfpia : findPermsIn s3 ["profile.edit", "profile.view",
              "user.view", "user.delete", "user.store", "user.update"] =
              findPermsIn s2 ["profile.edit", "profile.view",
                "user.view", "user.delete", "user.store", "user.update"] :=
            findPermsIn_congr hperms3 _
          rw [hadmAssoc, hfpia, List.map_map]
          rfl
      · cases hrc
  · -- idempotence
    rw [hrun]
    -- permission seeding is a no-op on s3
    have hnames3 : ∀ n ∈ seedPermissionNames,
        n ∈ s3.perms.map Permission.name := by
      intro n hn
      rw [hperms31]
      exact hnames1 n hn
    have hsp3 : seedPermissions s3 seedPermissionNames = s3 :=
      sp_noop seedPermissionNames s3 hnames3
    -- the member role is found and re-associated identically
    have hfindm3 : findRoleByName s3 "member" = some rm :=
      hstab3 "member" rm hfindm2
    have hfpim : findPermsIn s3 ["profile.edit", "profile.view"] =
        findPermsIn (seedPermissions s seedPermissionNames)
          ["profile.edit", "profile.view"] := findPermsIn_congr hperms31 _
    obtain ⟨hw11, hw12, hw13, hw14, hw15, hw16⟩ := hwf1
    have hlenm : (findPermsIn (seedPermissions s seedPermissionNames)
        ["profile.edit", "profile.view"]).length = 2 :=
      findPermsIn_length_eq hw11 (by decide) hmemm
    have hcond3m : ¬(findPermsIn s3 ["profile.edit", "profile.view"]).length ≠
        (["profile.edit", "profile.view"] : List String).length := by
      rw [hfpim, hlenm]
      exact fun hh => hh rfl
    rcases hc4 : createRoleWithPermissions s3 "member" ["profile.edit", "profile.view"]
      with e | s4
    · rw [crwp_of_found hfindm3, if_neg hcond3m] at hc4
      cases hc4
    · have hc4x := hc4
      rw [crwp_of_found hfindm3, if_neg hcond3m] at hc4x
      have hs4 := Except.ok.inj hc4x
      have hs4rp : s4.rolePerms =
          s3.rolePerms.filter (fun rp => rp.1 != rm.id) ++
            (findPermsIn s3 ["profile.edit", "profile.view"]).map
              (fun p => (rm.id, p.id)) := by
        rw [← hs4]
      have hs4perms : s4.perms = s3.perms := by
        rw [← hs4]
      have hs4roles : s4.roles = s3.roles := by
        rw [← hs4]
      have hs4npi : s4.nextPermId = s3.nextPermId := by
        rw [← hs4]
      have hs4nri : s4.nextRoleId = s3.nextRoleId := by
        rw [← hs4]
      -- the admin role is found and re-associated, restoring s3 exactly
      have hfinda4 : findRoleByName s4 "admin" = some ra := by
        rw [findRoleByName_rolesCongr hs4roles]
        exact hfinda3
      obtain ⟨hw21, hw22, hw23, hw24, hw25, hw26⟩ := hwf2
      have hlena : (findPermsIn s2 ["profile.edit", "profile.view",
          "user.view", "user.delete", "user.store", "user.update"]).length = 6 :=
        findPermsIn_length_eq hw21 (by decide) hmema
      have hfpia4 : findPermsIn s4 ["profile.edit", "profile.view",
          "user.view", "user.delete", "user.store", "user.update"] =
          findPermsIn s2 ["profile.edit", "profile.view",
            "user.view", "user.delete", "user.store", "user.update"] :=
        findPermsIn_congr (hs4perms.trans hperms3) _
      have hcond4a : ¬(findPermsIn s4 ["profile.edit", "profile.view",
          "user.view", "user.delete", "user.store", "user.update"]).length ≠
          (["profile.edit", "profile.view",
            "user.view", "user.delete", "user.store", "user.update"] :
              List String).length := by
        rw [hfpia4, hlena]
        exact fun hh => hh rfl
      have hrp5 : s4.rolePerms.filter (fun rp => rp.1 != ra.id) ++
          (findPermsIn s4 ["profile.edit", "profile.view",
            "user.view", "user.delete", "user.store", "user.update"]).map
              (fun p => (ra.id, p.id)) = s3.rolePerms := by
        rw [hfpia4, hs4rp, hfpim]
        rw [hrp3']
        simp only [List.filter_append]
        rw [rp_filter_bne_of_all hDFne_rm, rp_filter_bne_nil hMfst,
          rp_filter_bne_of_all hAne_rm, rp_filter_bne_of_all hDFne_ra,
          rp_filter_bne_nil hAfst, rp_filter_bne_of_all hMne_ra]
        simp
      rcases hc5 : createRoleWithPermissions s4 "admin" ["profile.edit", "profile.view",
          "user.view", "user.delete", "user.store", "user.update"] with e | s5
      · rw [crwp_of_found hfinda4, if_neg hcond4a] at hc5
        cases hc5
      · have hc5x := hc5
        rw [crwp_of_found hfinda4, if_neg hcond4a] at hc5x
        have hs5 := Except.ok.inj hc5x
        have hs53 : s5 = s3 := by
          refine store_ext ?_ ?_ ?_ ?_ ?_
          · rw [← hs5]
            exact hs4perms
          · rw [← hs5]
            exact hs4roles
          · rw [← hs5]
            exact hrp5
          · rw [← hs5]
            exact hs4npi
          · rw [← hs5]
            exact hs4nri
        have hsr3 : seedRoles s3 rolesConfig = .ok s3 := by
          simp only [rolesConfig, seedRoles, hc4, hc5, hs53]
        have htx3 : seedTx s3 seedPermissionNames rolesConfig = .ok s3 := by
          unfold seedTx
          rw [hsp3]
          exact hsr3
        unfold runSeed seederWithContext
        rw [htx3]

/-- Claim C1 witness: seeding a concrete store that already has a member
role with a stale association commits, yields a well-formed store whose
member and admin roles hold exactly the spec's resolved sets, and a second
run returns the identical store. -/
theorem claim1_seed_convergent_idempotent_witness :
    (seederWithContext sW seedPermissionNames rolesConfig).2 = none ∧
    StoreWF (runSeed sW) ∧
    (∀ rc ∈ rolesConfig, ∃ r : Role,
      findRoleByName (runSeed sW) rc.1 = some r ∧
      ((runSeed sW).rolePerms.filter (fun rp => rp.1 == r.id)).map Prod.snd =
        (findPermsIn (runSeed sW) rc.2).map Permission.id) ∧
    runSeed (runSeed sW) = runSeed sW :=
  claim1_seed_convergent_idempotent sW (by unfold StoreWF; decide)

end Momentum
